import Mathlib

/-!
Shallow embedding of the demo-parser core: the bit-stream reading contract,
the game-event decoder and game-event-list decoder, the packet-entities
delta decoder, and the analyser's user-id handling.  Streams are modelled
as little-endian bit lists (the head of the list is the next bit to read,
and the first bit read is the least significant bit of a sized read).
Machine integers are Nat / Int with explicit two-power wrapping wherever
the source casts between widths or can overflow.
-/

namespace Demo

/-- Remaining bits of a bit stream; the head is the next bit to be read. -/
abbrev Bits := List Bool

/-- Errors of the parser, following the repository's error taxonomy. -/
inductive ParseError where
  | notEnoughData
  | unknownType
  | noneValue
  | unknownEntity (id : Nat)
  | unknownServerClass (index : Nat)
  | unknownSendTable (name : Nat)
  | propIndexOutOfBounds (index : Int) (propCount : Nat)
deriving DecidableEq

/-- Value of a little-endian bit list: the first bit is least significant. -/
def bitsToNat : Bits → Nat
  | [] => 0
  | b :: rest => (if b then 1 else 0) + 2 * bitsToNat rest

/-- Modelled from the spec (the BitStream contract, not present under src):
read_bits carves a sub-stream of exactly n bits and advances the parent
cursor by n, failing with NotEnoughData on underflow. -/
def readBits (n : Nat) (s : Bits) : Except ParseError (Bits × Bits) :=
  if n ≤ s.length then .ok (s.take n, s.drop n) else .error .notEnoughData

/-- Modelled from the spec (the BitStream contract, not present under src):
read_sized reads n bits little-endian into an unsigned integer. -/
def readSized (n : Nat) (s : Bits) : Except ParseError (Nat × Bits) :=
  match readBits n s with
  | .error e => .error e
  | .ok (v, rest) => .ok (bitsToNat v, rest)

/-- Modelled from the spec (the BitStream contract, not present under src):
a bool is one bit. -/
def readBool (s : Bits) : Except ParseError (Bool × Bits) :=
  match s with
  | [] => .error .notEnoughData
  | b :: rest => .ok (b, rest)

/-- Modelled from the spec (the BitStream contract, not present under src):
skip_bits advances the cursor without materialising a value. -/
def skipBits (n : Nat) (s : Bits) : Except ParseError Bits :=
  if n ≤ s.length then .ok (s.drop n) else .error .notEnoughData

/-- Modelled from the spec (the BitStream contract, not present under src):
an optional u32 is a one-bit tag followed by 32 bits when the tag is set. -/
def readOptionU32 (s : Bits) : Except ParseError (Option Nat × Bits) :=
  match readBool s with
  | .error e => .error e
  | .ok (true, s1) =>
    match readSized 32 s1 with
    | .error e => .error e
    | .ok (v, s2) => .ok (some v, s2)
  | .ok (false, s1) => .ok (Option.none, s1)

/-- Modelled from the spec (the BitStream contract, not present under src):
a variable-length C string is bytes until 0x00; the terminator is consumed
and not part of the value.  The fuel argument only bounds the recursion;
each step consumes eight bits, so any fuel above the bit length of the
stream gives the same result. -/
def readCStringAux : Nat → Bits → Except ParseError (List Nat × Bits)
  | 0, _ => .error .notEnoughData
  | fuel + 1, s =>
    match readSized 8 s with
    | .error e => .error e
    | .ok (b, s1) =>
      if b = 0 then .ok ([], s1)
      else
        match readCStringAux fuel s1 with
        | .error e => .error e
        | .ok (bs, s2) => .ok (b :: bs, s2)

/-- C-string read at the canonical fuel. -/
def readCString (s : Bits) : Except ParseError (List Nat × Bits) :=
  readCStringAux (s.length + 1) s

/-- Reinterpretation of a 32-bit unsigned value as a two's-complement i32,
as the source's `as i32` cast does. -/
def i32cast (n : Nat) : Int := if n < 2 ^ 31 then (n : Int) else (n : Int) - 2 ^ 32

/-- Wrapping of an integer into the i32 range, modelling release-mode i32
addition. -/
def wrap32 (z : Int) : Int := (z + 2 ^ 31) % 2 ^ 32 - 2 ^ 31

/-- Reinterpretation of an i32 value as a u32, as `as u32` does. -/
def toU32 (z : Int) : Nat := (z % 2 ^ 32).toNat

/-- Reinterpretation of an i32 value as a 64-bit usize, as `as usize` does
(sign extension followed by unsigned reinterpretation). -/
def toUsize (z : Int) : Nat := (z % 2 ^ 64).toNat

/-- Little-endian encoder of a value into a fixed bit width, used to build
the concrete test streams of the witnesses. -/
def natToBits : Nat → Nat → Bits
  | 0, _ => []
  | n + 1, v => (v % 2 = 1) :: natToBits n (v / 2)

/-- Association-list lookup, standing for the HashMap reads of the source. -/
def alookup {α : Type} (k : Nat) : List (Nat × α) → Option α
  | [] => Option.none
  | (k1, v) :: rest => if k1 = k then some v else alookup k rest

/-- Kinds of a game-event entry, as in the source's GameEventValueType. -/
inductive GameEventValueType where
  | none
  | string
  | float
  | long
  | short
  | byte
  | boolean
  | local
deriving DecidableEq

/-- Modelled from the spec (the BitRead derive of GameEventValueType lives
outside src): a kind is a three-bit little-endian discriminant with
None = 0, String = 1, Float = 2, Long = 3, Short = 4, Byte = 5,
Boolean = 6, Local = 7. -/
def readEventValueType (s : Bits) : Except ParseError (GameEventValueType × Bits) :=
  match readSized 3 s with
  | .error e => .error e
  | .ok (v, s1) =>
    .ok ((match v with
      | 0 => .none
      | 1 => .string
      | 2 => .float
      | 3 => .long
      | 4 => .short
      | 5 => .byte
      | 6 => .boolean
      | _ => .local), s1)

/-- One (name, kind) entry of a game-event definition. -/
structure GameEventEntry where
  name : List Nat
  kind : GameEventValueType
deriving DecidableEq

/-- Modelled from the spec: the static name-to-tag table lives outside src;
the tag is represented by the name itself, which is faithful for every
claim here since no claim depends on the tag values. -/
def from_type_name (name : List Nat) : List Nat := name

/-- A game-event definition: id, tag, name and ordered entries. -/
structure GameEventDefinition where
  id : Nat
  event_type : List Nat
  name : List Nat
  entries : List GameEventEntry
deriving DecidableEq

/-- A decoded game-event value.  Floats are carried as raw 32-bit
little-endian patterns, which is exactly what the wire read produces. -/
inductive GameEventValue where
  | string (v : List Nat)
  | float (v : Nat)
  | long (v : Nat)
  | short (v : Nat)
  | byte (v : Nat)
  | boolean (v : Bool)
  | local
deriving DecidableEq

/-- A raw game event: tag plus decoded values in definition order. -/
structure RawGameEvent where
  event_type : List Nat
  values : List GameEventValue
deriving DecidableEq

/-- Modelled from the spec: the typed-event conversion lives outside src;
unknown events are surfaced as a generic variant, so the conversion is
total and never yields the UnknownType or NoneValue errors. -/
structure GameEvent where
  raw : RawGameEvent
deriving DecidableEq

/-- Modelled from the spec: conversion of the raw event into its typed
form; see GameEvent. -/
def GameEvent.from_raw_event (r : RawGameEvent) : Except ParseError GameEvent :=
  .ok ⟨r⟩

/-- Kinds of a send-prop definition. -/
inductive SendPropKind where
  | int
  | float
  | vector
  | vectorXY
  | string
  | array
  | dataTable
deriving DecidableEq

/-- Modelled from the spec (sendprop.rs is not under src): an immutable
send-prop definition, compared by structural equality as the source's
PartialEq-based `eq` does.  Names are interned as naturals, the float
bounds are carried as raw 32-bit patterns, and the optional array-element
definition is carried as an interned reference; no claim reads any of
these fields, only whole-definition equality matters. -/
structure SendPropDefinition where
  owner_table : Nat
  name : Nat
  kind : SendPropKind
  flags : Nat
  bit_count : Nat
  low_value : Nat
  high_value : Nat
  element_count : Nat
  array_element : Option Nat
deriving DecidableEq

/-- Modelled from the spec (sendprop.rs is not under src): a decoded
send-prop value.  Numeric payloads are carried as raw patterns; no claim
depends on their float interpretation. -/
inductive SendPropValue where
  | integer (v : Int)
  | float (v : Nat)
  | vector (x y z : Nat)
  | vectorXY (x y : Nat)
  | string (v : List Nat)
  | array (vs : List SendPropValue)

/-- A definition paired with a decoded value. -/
structure SendProp where
  definition : SendPropDefinition
  value : SendPropValue

/-- A send table: its name and the flattened, wire-ordered prop list. -/
structure SendTable where
  name : Nat
  flattened_props : List SendPropDefinition

/-- A server class: id, name and the name of its send table. -/
structure ServerClass where
  id : Nat
  name : Nat
  data_table : Nat
deriving DecidableEq

/-- The long-lived parser state read by the decoders.  Modelled from the
spec where the source is absent: maps are association lists, the two
instance-baseline slots are a pair, and static baselines are raw bit
blobs as the source keeps them. -/
structure ParserState where
  send_tables : List (Nat × SendTable)
  server_classes : List ServerClass
  event_definitions : List GameEventDefinition
  entity_classes : List (Nat × ServerClass)
  static_baselines : List (Nat × Bits)
  instance_baselines : List (Nat × List SendProp) × List (Nat × List SendProp)

/-- Instance-baseline slot selected by the one-bit base_line field. -/
def ParserState.instance_baseline (state : ParserState) (i : Nat) :
    List (Nat × List SendProp) :=
  if i = 0 then state.instance_baselines.1 else state.instance_baselines.2

/-- Reader of one event value per the entry's kind (read_event_value). -/
def read_event_value (s : Bits) (entry : GameEventEntry) :
    Except ParseError (GameEventValue × Bits) :=
  match entry.kind with
  | .string =>
    match readCString s with
    | .error e => .error e
    | .ok (v, s1) => .ok (.string v, s1)
  | .float =>
    match readSized 32 s with
    | .error e => .error e
    | .ok (v, s1) => .ok (.float v, s1)
  | .long =>
    match readSized 32 s with
    | .error e => .error e
    | .ok (v, s1) => .ok (.long v, s1)
  | .short =>
    match readSized 16 s with
    | .error e => .error e
    | .ok (v, s1) => .ok (.short v, s1)
  | .byte =>
    match readSized 8 s with
    | .error e => .error e
    | .ok (v, s1) => .ok (.byte v, s1)
  | .boolean =>
    match readBool s with
    | .error e => .error e
    | .ok (v, s1) => .ok (.boolean v, s1)
  | .local => .ok (.local, s)
  | .none => .error .noneValue

/-- Value loop of GameEventMessage::parse: one value per definition entry,
in order. -/
def readEventValues : List GameEventEntry → Bits →
    Except ParseError (List GameEventValue × Bits)
  | [], s => .ok ([], s)
  | entry :: rest, s =>
    match read_event_value s entry with
    | .error e => .error e
    | .ok (v, s1) =>
      match readEventValues rest s1 with
      | .error e => .error e
      | .ok (vs, s2) => .ok (v :: vs, s2)

/-- A decoded game-event message. -/
structure GameEventMessage where
  event : GameEvent

/-- GameEventMessage::parse: 11-bit length, carve, 9-bit type id, lookup
of the definition by position, value loop, typed conversion. -/
def GameEventMessage.parse (s : Bits) (state : ParserState) :
    Except ParseError (GameEventMessage × Bits) :=
  match readSized 11 s with
  | .error e => .error e
  | .ok (length, s1) =>
    match readBits length s1 with
    | .error e => .error e
    | .ok (data, rest) =>
      match readSized 9 data with
      | .error e => .error e
      | .ok (eventType, d1) =>
        match state.event_definitions.get? eventType with
        | Option.none => .error .unknownType
        | some defn =>
          match readEventValues defn.entries d1 with
          | .error e => .error e
          | .ok (values, _) =>
            match GameEvent.from_raw_event ⟨defn.event_type, values⟩ with
            | .error e => .error e
            | .ok event => .ok (⟨event⟩, rest)

/-- GameEventMessage::parse_skip: 11-bit length then skip that many bits. -/
def GameEventMessage.parse_skip (s : Bits) : Except ParseError Bits :=
  match readSized 11 s with
  | .error e => .error e
  | .ok (length, s1) => skipBits length s1

/-- Entry loop of GameEventDefinition::read: read a kind and, while it is
not None, a name; terminates on kind None.  Fuel only bounds the
recursion, each step consuming at least three bits. -/
def readEventEntriesAux : Nat → Bits → Except ParseError (List GameEventEntry × Bits)
  | 0, _ => .error .notEnoughData
  | fuel + 1, s =>
    match readEventValueType s with
    | .error e => .error e
    | .ok (kind, s1) =>
      if kind = .none then .ok ([], s1)
      else
        match readCString s1 with
        | .error e => .error e
        | .ok (entryName, s2) =>
          match readEventEntriesAux fuel s2 with
          | .error e => .error e
          | .ok (entries, s3) => .ok (⟨entryName, kind⟩ :: entries, s3)

/-- GameEventDefinition::read: 9-bit event-type id, NUL-terminated name,
then the entry loop. -/
def GameEventDefinition.read (s : Bits) :
    Except ParseError (GameEventDefinition × Bits) :=
  match readSized 9 s with
  | .error e => .error e
  | .ok (eventType, s1) =>
    match readCString s1 with
    | .error e => .error e
    | .ok (defName, s2) =>
      match readEventEntriesAux (s2.length + 1) s2 with
      | .error e => .error e
      | .ok (entries, s3) =>
        .ok (⟨eventType, from_type_name defName, defName, entries⟩, s3)

/-- Sized vector read of GameEventListMessage::read: exactly count
definitions in sequence. -/
def readEventDefinitions : Nat → Bits →
    Except ParseError (List GameEventDefinition × Bits)
  | 0, s => .ok ([], s)
  | n + 1, s =>
    match GameEventDefinition.read s with
    | .error e => .error e
    | .ok (defn, s1) =>
      match readEventDefinitions n s1 with
      | .error e => .error e
      | .ok (defns, s2) => .ok (defn :: defns, s2)

/-- The decoded game-event list message. -/
structure GameEventListMessage where
  event_list : List GameEventDefinition

/-- GameEventListMessage::read: 9-bit count, 20-bit length, carve length
bits, read exactly count definitions from the carved stream. -/
def GameEventListMessage.read (s : Bits) :
    Except ParseError (GameEventListMessage × Bits) :=
  match readSized 9 s with
  | .error e => .error e
  | .ok (count, s1) =>
    match readSized 20 s1 with
    | .error e => .error e
    | .ok (length, s2) =>
      match readBits length s2 with
      | .error e => .error e
      | .ok (data, rest) =>
        match readEventDefinitions count data with
        | .error e => .error e
        | .ok (eventList, _) => .ok (⟨eventList⟩, rest)

/-- The two-bit PVS state of an updated entry. -/
inductive PVS where
  | preserve
  | leave
  | enter
  | delete
deriving DecidableEq

/-- Two-bit little-endian discriminant read of the PVS enum:
Preserve = 0, Leave = 1, Enter = 2, Delete = 3. -/
def readPVS (s : Bits) : Except ParseError (PVS × Bits) :=
  match readSized 2 s with
  | .error e => .error e
  | .ok (v, s1) =>
    .ok ((match v with
      | 0 => .preserve
      | 1 => .leave
      | 2 => .enter
      | _ => .delete), s1)

/-- A decoded packet entity. -/
structure PacketEntity where
  server_class : ServerClass
  entity_index : Nat
  props : List SendProp
  in_pvs : Bool
  pvs : PVS
  serial_number : Nat
  delay : Option Nat

/-- Inner step of PacketEntity::apply_update: replace the value of the
first prop whose definition equals the incoming prop's definition, or
append the incoming prop at the end when none matches. -/
def applyProp : List SendProp → SendProp → List SendProp
  | [], p => [p]
  | q :: rest, p =>
    if q.definition = p.definition then ⟨q.definition, p.value⟩ :: rest
    else q :: applyProp rest p

/-- PacketEntity::apply_update over a list of incoming props. -/
def PacketEntity.apply_update (entity : PacketEntity) (props : List SendProp) :
    PacketEntity :=
  ⟨entity.server_class, entity.entity_index, props.foldl applyProp entity.props,
    entity.in_pvs, entity.pvs, entity.serial_number, entity.delay⟩

/-- Width table of the ubitvar encoding, as the match in read_bit_var. -/
def bit_var_width (ty : Nat) : Nat :=
  match ty with
  | 0 => 4
  | 1 => 8
  | 2 => 12
  | _ => 32

/-- read_bit_var: a two-bit selector followed by 4, 8, 12 or 32 bits
little-endian.  The selector is the value of a two-bit read, so it is
always below four and the source's unreachable arm never fires. -/
def read_bit_var (s : Bits) : Except ParseError (Nat × Bits) :=
  match readSized 2 s with
  | .error e => .error e
  | .ok (ty, s1) => readSized (bit_var_width ty) s1

/-- Decoder of one prop value given its definition.  SendPropValue::parse
lives outside src (sendprop.rs); the packet-entities functions are
parameterised over it. -/
def PropValueReader : Type :=
  SendPropDefinition → Bits → Except ParseError (SendPropValue × Bits)

/-- Trivial instantiation of the prop-value decoder used by the concrete
witnesses: it consumes no bits and yields the integer zero. -/
def trivialReader : PropValueReader := fun _ s => .ok (.integer 0, s)

/-- get_send_table: send-table lookup by name. -/
def get_send_table (state : ParserState) (table : Nat) :
    Except ParseError SendTable :=
  match alookup table state.send_tables with
  | some t => .ok t
  | Option.none => .error (.unknownSendTable table)

/-- get_entity_for_update: fetch the server class of a live entity and
build an empty-prop entity with the given PVS. -/
def get_entity_for_update (state : ParserState) (entityIndex : Nat) (pvs : PVS) :
    Except ParseError PacketEntity :=
  match alookup entityIndex state.entity_classes with
  | some serverClass =>
    .ok ⟨serverClass, entityIndex, [], false, pvs, 0, Option.none⟩
  | Option.none => .error (.unknownEntity entityIndex)

/-- Prop-update loop of PacketEntitiesMessage::read_update: while the
continuation bit is one, read a ubitvar diff, advance the running i32
index, look the flattened prop up by the index reinterpreted as usize,
and decode one value.  Fuel only bounds the recursion; each step consumes
at least one bit, so any fuel above the bit length gives the same
result. -/
def readUpdateAux (pv : PropValueReader) (table : SendTable) :
    Nat → Bits → Int → Except ParseError (List SendProp × Bits)
  | 0, _, _ => .error .notEnoughData
  | fuel + 1, s, index =>
    match readBool s with
    | .error e => .error e
    | .ok (false, s1) => .ok ([], s1)
    | .ok (true, s1) =>
      match read_bit_var s1 with
      | .error e => .error e
      | .ok (diff, s2) =>
        match table.flattened_props.get? (toUsize (wrap32 (index + i32cast diff + 1))) with
        | Option.none =>
          .error (.propIndexOutOfBounds (wrap32 (index + i32cast diff + 1))
            table.flattened_props.length)
        | some defn =>
          match pv defn s2 with
          | .error e => .error e
          | .ok (value, s3) =>
            match readUpdateAux pv table fuel s3 (wrap32 (index + i32cast diff + 1)) with
            | .error e => .error e
            | .ok (props, s4) => .ok (⟨defn, value⟩ :: props, s4)

/-- PacketEntitiesMessage::read_update at the canonical fuel, starting
from index minus one. -/
def read_update (pv : PropValueReader) (table : SendTable) (s : Bits) :
    Except ParseError (List SendProp × Bits) :=
  readUpdateAux pv table (s.length + 1) s (-1)

/-- Modelled from the spec (ParserState::get_static_baseline lives outside
src): decode the raw static-baseline bits of the given class id against
the send table with the prop-update loop.  The source also caches the
decoded form, which is observationally elided; the spec leaves the
missing-id case unspecified and it is modelled as an empty list, which no
claim exercises. -/
def ParserState.get_static_baseline (pv : PropValueReader) (state : ParserState)
    (classId : Nat) (table : SendTable) : Except ParseError (List SendProp) :=
  match alookup classId state.static_baselines with
  | some raw =>
    match read_update pv table raw with
    | .error e => .error e
    | .ok (props, _) => .ok props
  | Option.none => .ok []

/-- Modelled from the spec (log_base2 lives outside src, in the
string-table module): the ceiling base-two logarithm, written with an
explicit fuel so that it computes by reduction; fuel n always suffices
because the bit length of n - 1 is at most n. -/
def bitLenAux : Nat → Nat → Nat
  | 0, _ => 0
  | fuel + 1, n => if n = 0 then 0 else bitLenAux fuel (n / 2) + 1

/-- Modelled from the spec: ceil(log2 n); see bitLenAux. -/
def log_base2 (n : Nat) : Nat := bitLenAux n (n - 1)

/-- PacketEntitiesMessage::read_enter: a class index of
log_base2(server class count) + 1 bits, the class lookup, a 10-bit serial
number, the send-table lookup, then the baseline precedence: the instance
baseline of the entity in the selected slot if present, else the static
baseline when one exists under the server class id — fetched, as the
source does, under the class index — else no props. -/
def read_enter (pv : PropValueReader) (s : Bits) (entityIndex : Nat)
    (state : ParserState) (baselineIndex : Nat) :
    Except ParseError (PacketEntity × Bits) :=
  match readSized (log_base2 state.server_classes.length + 1) s with
  | .error e => .error e
  | .ok (classIndex, s1) =>
    match state.server_classes.get? classIndex with
    | Option.none => .error (.unknownServerClass classIndex)
    | some serverClass =>
      match readSized 10 s1 with
      | .error e => .error e
      | .ok (serial, s2) =>
        match alookup serverClass.data_table state.send_tables with
        | Option.none => .error (.unknownSendTable serverClass.data_table)
        | some sendTable =>
          match alookup entityIndex (state.instance_baseline baselineIndex) with
          | some baseline =>
            .ok (⟨serverClass, entityIndex, baseline, true, .enter, serial,
              Option.none⟩, s2)
          | Option.none =>
            match alookup serverClass.id state.static_baselines with
            | some _ =>
              match state.get_static_baseline pv classIndex sendTable with
              | .error e => .error e
              | .ok props =>
                .ok (⟨serverClass, entityIndex, props, true, .enter, serial,
                  Option.none⟩, s2)
            | Option.none =>
              .ok (⟨serverClass, entityIndex, [], true, .enter, serial,
                Option.none⟩, s2)

/-- Updated-entries loop of PacketEntitiesMessage::parse: for each entry,
read a ubitvar diff, advance the running i32 index (starting at minus
one), read the two-bit PVS and dispatch: Enter builds the entity from the
baselines and applies the update; Preserve fetches the live entity and
replaces its props with the update; Leave and Delete append the live
entity when it is known and nothing otherwise. -/
def parseEntitiesLoop (pv : PropValueReader) (state : ParserState) (baseLine : Nat) :
    Nat → Bits → Int → Except ParseError (List PacketEntity × Bits)
  | 0, s, _ => .ok ([], s)
  | n + 1, s, lastIndex =>
    match read_bit_var s with
    | .error e => .error e
    | .ok (diff, s1) =>
      match readPVS s1 with
      | .error e => .error e
      | .ok (pvs, s2) =>
        if pvs = .enter then
          match read_enter pv s2 (toU32 (wrap32 (lastIndex + i32cast diff + 1)))
              state baseLine with
          | .error e => .error e
          | .ok (entity, s3) =>
            match get_send_table state entity.server_class.data_table with
            | .error e => .error e
            | .ok sendTable =>
              match read_update pv sendTable s3 with
              | .error e => .error e
              | .ok (updatedProps, s4) =>
                match parseEntitiesLoop pv state baseLine n s4
                    (wrap32 (lastIndex + i32cast diff + 1)) with
                | .error e => .error e
                | .ok (entities, s5) =>
                  .ok (entity.apply_update updatedProps :: entities, s5)
        else if pvs = .preserve then
          match get_entity_for_update state
              (toU32 (wrap32 (lastIndex + i32cast diff + 1))) pvs with
          | .error e => .error e
          | .ok entity =>
            match get_send_table state entity.server_class.data_table with
            | .error e => .error e
            | .ok sendTable =>
              match read_update pv sendTable s2 with
              | .error e => .error e
              | .ok (updatedProps, s3) =>
                match parseEntitiesLoop pv state baseLine n s3
                    (wrap32 (lastIndex + i32cast diff + 1)) with
                | .error e => .error e
                | .ok (entities, s4) =>
                  .ok (⟨entity.server_class, entity.entity_index, updatedProps,
                    entity.in_pvs, entity.pvs, entity.serial_number,
                    entity.delay⟩ :: entities, s4)
        else if (alookup (toU32 (wrap32 (lastIndex + i32cast diff + 1)))
            state.entity_classes).isSome then
          match get_entity_for_update state
              (toU32 (wrap32 (lastIndex + i32cast diff + 1))) pvs with
          | .error e => .error e
          | .ok entity =>
            match parseEntitiesLoop pv state baseLine n s2
                (wrap32 (lastIndex + i32cast diff + 1)) with
            | .error e => .error e
            | .ok (entities, s3) => .ok (entity :: entities, s3)
        else
          parseEntitiesLoop pv state baseLine n s2
            (wrap32 (lastIndex + i32cast diff + 1))

/-- Removed-entities trailer: repeatedly read one bit and, while it is
one, an 11-bit entity id, in wire order.  Fuel only bounds the recursion;
each step consumes at least one bit. -/
def readRemovedEntitiesAux : Nat → Bits → Except ParseError (List Nat × Bits)
  | 0, _ => .error .notEnoughData
  | fuel + 1, s =>
    match readBool s with
    | .error e => .error e
    | .ok (false, s1) => .ok ([], s1)
    | .ok (true, s1) =>
      match readSized 11 s1 with
      | .error e => .error e
      | .ok (id, s2) =>
        match readRemovedEntitiesAux fuel s2 with
        | .error e => .error e
        | .ok (ids, s3) => .ok (id :: ids, s3)

/-- Removed-entities trailer at the canonical fuel. -/
def readRemovedEntities (s : Bits) : Except ParseError (List Nat × Bits) :=
  readRemovedEntitiesAux (s.length + 1) s

/-- The decoded packet-entities message. -/
structure PacketEntitiesMessage where
  entities : List PacketEntity
  removed_entities : List Nat
  max_entries : Nat
  delta : Option Nat
  base_line : Nat
  updated_base_line : Bool

/-- PacketEntitiesMessage::parse: the fixed header (11-bit max_entries,
optional 32-bit delta, 1-bit base_line, 11-bit updated_entries, 20-bit
length, 1-bit updated_base_line), the carved body, the updated-entries
loop, and the removed-entities trailer read from the body only when delta
is present. -/
def PacketEntitiesMessage.parse (pv : PropValueReader) (s : Bits)
    (state : ParserState) : Except ParseError (PacketEntitiesMessage × Bits) := do
  let (maxEntries, s1) ← readSized 11 s
  let (delta, s2) ← readOptionU32 s1
  let (baseLine, s3) ← readSized 1 s2
  let (updatedEntries, s4) ← readSized 11 s3
  let (length, s5) ← readSized 20 s4
  let (updatedBaseLine, s6) ← readBool s5
  let (data, rest) ← readBits length s6
  let (entities, data1) ← parseEntitiesLoop pv state baseLine updatedEntries data (-1)
  let (removedEntities, _) ←
    (if delta.isSome then readRemovedEntities data1 else .ok ([], data1))
  .ok (⟨entities, removedEntities, maxEntries, delta, baseLine, updatedBaseLine⟩, rest)

/-- PacketEntitiesMessage::parse_skip: read the same fixed-width header
fields and skip the 20-bit length worth of body bits. -/
def PacketEntitiesMessage.parse_skip (s : Bits) : Except ParseError Bits := do
  let (_, s1) ← readSized 11 s
  let (_, s2) ← readOptionU32 s1
  let (_, s3) ← readSized 1 s2
  let (_, s4) ← readSized 11 s3
  let (length, s5) ← readSized 20 s4
  let (_, s6) ← readBool s5
  skipBits length s6

/-- Team of the analyser. -/
inductive Team where
  | other
  | spectator
  | red
  | blue
deriving DecidableEq

/-- Team::new. -/
def Team.new (number : Nat) : Team :=
  match number with
  | 1 => .spectator
  | 2 => .red
  | 3 => .blue
  | _ => .other

/-- Player class of the analyser. -/
inductive Class where
  | other
  | scout
  | sniper
  | solder
  | demoman
  | medic
  | heavy
  | pyro
  | spy
  | engineer
deriving DecidableEq

/-- Class::new. -/
def Class.new (number : Nat) : Class :=
  match number with
  | 1 => .scout
  | 2 => .sniper
  | 3 => .solder
  | 4 => .demoman
  | 5 => .medic
  | 6 => .heavy
  | 7 => .pyro
  | 8 => .spy
  | 9 => .engineer
  | _ => .other

/-- UserId::from(u32): the low eight bits of the 32-bit id. -/
def UserId.fromU32 (int : Nat) : Nat := int &&& 255

/-- Modelled from the repository's callers (gameevent_gen.rs is not under
src): the fields of a player-death event that the analyser reads. -/
structure PlayerDeathEvent where
  weapon : List Nat
  user_id : Nat
  attacker : Nat
  assister : Nat

/-- Modelled from the repository's callers (gameevent_gen.rs is not under
src): the fields of a player-spawn event that the analyser reads. -/
structure PlayerSpawnEvent where
  user_id : Nat
  class_number : Nat
  team : Nat

/-- A death record of the analyser. -/
structure Death where
  weapon : List Nat
  victim : Nat
  assister : Option Nat
  killer : Nat
  tick : Nat
deriving DecidableEq

/-- Death::from_event: mask attacker and victim to eight bits; record the
assister, also masked, only when the wire value is below 16 * 1024. -/
def Death.from_event (event : PlayerDeathEvent) (tick : Nat) : Death :=
  ⟨event.weapon, event.user_id &&& 255,
    (if event.assister < 16 * 1024 then some (event.assister &&& 255)
      else Option.none),
    event.attacker &&& 255, tick⟩

/-- A spawn record of the analyser. -/
structure Spawn where
  user : Nat
  spawn_class : Class
  team : Team
  tick : Nat
deriving DecidableEq

/-- Spawn::from_event: mask the spawning user id to eight bits. -/
def Spawn.from_event (event : PlayerSpawnEvent) (tick : Nat) : Spawn :=
  ⟨event.user_id &&& 255, Class.new event.class_number, Team.new event.team, tick⟩

/-- Index-and-diff trace of the prop-update loop: the same reads in the
same order as readUpdateAux, recording the successive i32 indices and the
raw ubitvar diffs instead of the decoded props. -/
def readUpdateTraceAux (pv : PropValueReader) (table : SendTable) :
    Nat → Bits → Int → Except ParseError (List Int × List Nat × Bits)
  | 0, _, _ => .error .notEnoughData
  | fuel + 1, s, index =>
    match readBool s with
    | .error e => .error e
    | .ok (false, s1) => .ok ([], [], s1)
    | .ok (true, s1) =>
      match read_bit_var s1 with
      | .error e => .error e
      | .ok (diff, s2) =>
        match table.flattened_props.get? (toUsize (wrap32 (index + i32cast diff + 1))) with
        | Option.none =>
          .error (.propIndexOutOfBounds (wrap32 (index + i32cast diff + 1))
            table.flattened_props.length)
        | some defn =>
          match pv defn s2 with
          | .error e => .error e
          | .ok (_, s3) =>
            match readUpdateTraceAux pv table fuel s3 (wrap32 (index + i32cast diff + 1)) with
            | .error e => .error e
            | .ok (ixs, ds, s4) =>
              .ok (wrap32 (index + i32cast diff + 1) :: ixs, diff :: ds, s4)

/-- Index-and-diff trace of read_update at the canonical fuel. -/
def readUpdateTrace (pv : PropValueReader) (table : SendTable) (s : Bits) :
    Except ParseError (List Int × List Nat × Bits) :=
  readUpdateTraceAux pv table (s.length + 1) s (-1)

/-- Index-and-diff trace of the updated-entries loop: the same reads in
the same order as parseEntitiesLoop, recording the successive i32 entity
indices and the raw ubitvar diffs instead of the decoded entities. -/
def entitiesLoopTrace (pv : PropValueReader) (state : ParserState) (baseLine : Nat) :
    Nat → Bits → Int → Except ParseError (List Int × List Nat × Bits)
  | 0, s, _ => .ok ([], [], s)
  | n + 1, s, lastIndex =>
    match read_bit_var s with
    | .error e => .error e
    | .ok (diff, s1) =>
      match readPVS s1 with
      | .error e => .error e
      | .ok (pvs, s2) =>
        if pvs = .enter then
          match read_enter pv s2 (toU32 (wrap32 (lastIndex + i32cast diff + 1)))
              state baseLine with
          | .error e => .error e
          | .ok (entity, s3) =>
            match get_send_table state entity.server_class.data_table with
            | .error e => .error e
            | .ok sendTable =>
              match read_update pv sendTable s3 with
              | .error e => .error e
              | .ok (_, s4) =>
                match entitiesLoopTrace pv state baseLine n s4
                    (wrap32 (lastIndex + i32cast diff + 1)) with
                | .error e => .error e
                | .ok (ixs, ds, s5) =>
                  .ok (wrap32 (lastIndex + i32cast diff + 1) :: ixs, diff :: ds, s5)
        else if pvs = .preserve then
          match get_entity_for_update state
              (toU32 (wrap32 (lastIndex + i32cast diff + 1))) pvs with
          | .error e => .error e
          | .ok entity =>
            match get_send_table state entity.server_class.data_table with
            | .error e => .error e
            | .ok sendTable =>
              match read_update pv sendTable s2 with
              | .error e => .error e
              | .ok (_, s3) =>
                match entitiesLoopTrace pv state baseLine n s3
                    (wrap32 (lastIndex + i32cast diff + 1)) with
                | .error e => .error e
                | .ok (ixs, ds, s4) =>
                  .ok (wrap32 (lastIndex + i32cast diff + 1) :: ixs, diff :: ds, s4)
        else if (alookup (toU32 (wrap32 (lastIndex + i32cast diff + 1)))
            state.entity_classes).isSome then
          match get_entity_for_update state
              (toU32 (wrap32 (lastIndex + i32cast diff + 1))) pvs with
          | .error e => .error e
          | .ok _ =>
            match entitiesLoopTrace pv state baseLine n s2
                (wrap32 (lastIndex + i32cast diff + 1)) with
            | .error e => .error e
            | .ok (ixs, ds, s3) =>
              .ok (wrap32 (lastIndex + i32cast diff + 1) :: ixs, diff :: ds, s3)
        else
          match entitiesLoopTrace pv state baseLine n s2
              (wrap32 (lastIndex + i32cast diff + 1)) with
          | .error e => .error e
          | .ok (ixs, ds, s3) =>
            .ok (wrap32 (lastIndex + i32cast diff + 1) :: ixs, diff :: ds, s3)

theorem bitsToNat_lt (l : Bits) : bitsToNat l < 2 ^ l.length := by
  induction l with
  | nil => simp [bitsToNat]
  | cons b t ih =>
    have h2 : 2 ^ (b :: t).length = 2 * 2 ^ t.length := by
      simp [List.length_cons, pow_succ]; ring
    rw [h2]; cases b <;> simp [bitsToNat] <;> omega

theorem readBits_ok {n : Nat} {s d s1 : Bits} (h : readBits n s = .ok (d, s1)) :
    d = s.take n ∧ s1 = s.drop n ∧ n ≤ s.length := by
  unfold readBits at h
  split at h
  · simp only [Except.ok.injEq, Prod.mk.injEq] at h
    exact ⟨h.1.symm, h.2.symm, by assumption⟩
  · cases h

theorem readBits_eq_ok {n : Nat} {s : Bits} (h : n ≤ s.length) :
    readBits n s = .ok (s.take n, s.drop n) := by
  unfold readBits; rw [if_pos h]

theorem readSized_ok {n : Nat} {s : Bits} {v : Nat} {s1 : Bits}
    (h : readSized n s = .ok (v, s1)) :
    v = bitsToNat (s.take n) ∧ s1 = s.drop n ∧ n ≤ s.length := by
  unfold readSized at h
  cases hb : readBits n s with
  | error e => rw [hb] at h; cases h
  | ok p =>
    rw [hb] at h
    obtain ⟨h1, h2, h3⟩ := readBits_ok hb
    simp only [Except.ok.injEq, Prod.mk.injEq] at h
    exact ⟨by rw [← h.1, h1], by rw [← h.2, h2], h3⟩

theorem readSized_eq_ok {n : Nat} {s : Bits} (h : n ≤ s.length) :
    readSized n s = .ok (bitsToNat (s.take n), s.drop n) := by
  unfold readSized; rw [readBits_eq_ok h]

theorem readSized_lt {n : Nat} {s : Bits} {v : Nat} {s1 : Bits}
    (h : readSized n s = .ok (v, s1)) : v < 2 ^ n := by
  obtain ⟨h1, _, h3⟩ := readSized_ok h
  have := bitsToNat_lt (s.take n)
  rw [List.length_take] at this
  have hm : min n s.length = n := Nat.min_eq_left h3
  rw [hm] at this
  omega

theorem readBool_ok {s : Bits} {b : Bool} {s1 : Bits}
    (h : readBool s = .ok (b, s1)) : s = b :: s1 := by
  unfold readBool at h
  cases s with
  | nil => cases h
  | cons x t => simp only [Except.ok.injEq, Prod.mk.injEq] at h; rw [h.1, h.2]

theorem skipBits_ok {n : Nat} {s s1 : Bits} (h : skipBits n s = .ok s1) :
    s1 = s.drop n ∧ n ≤ s.length := by
  unfold skipBits at h
  split at h
  · simp only [Except.ok.injEq] at h; exact ⟨h.symm, by assumption⟩
  · cases h

theorem skipBits_eq_ok {n : Nat} {s : Bits} (h : n ≤ s.length) :
    skipBits n s = .ok (s.drop n) := by
  unfold skipBits; rw [if_pos h]

theorem readOptionU32_ok {s : Bits} {o : Option Nat} {s1 : Bits}
    (h : readOptionU32 s = .ok (o, s1)) :
    (o = Option.none ∧ s1 = s.drop 1 ∧ 1 ≤ s.length) ∨
    (∃ v, o = some v ∧ s1 = s.drop 33 ∧ 33 ≤ s.length) := by
  unfold readOptionU32 at h
  cases hb : readBool s with
  | error e => simp only [hb] at h; exact Except.noConfusion h
  | ok p =>
    obtain ⟨b, s2⟩ := p
    have hs : s = b :: s2 := readBool_ok hb
    cases b with
    | false =>
      simp only [hb, Except.ok.injEq, Prod.mk.injEq] at h
      left
      have hd : List.drop 1 (false :: s2) = s2 := rfl
      refine ⟨h.1.symm, ?_, ?_⟩
      · rw [hs, hd]; exact h.2.symm
      · rw [hs, List.length_cons]; omega
    | true =>
      simp only [hb] at h
      cases h32 : readSized 32 s2 with
      | error e => simp only [h32] at h; exact Except.noConfusion h
      | ok q =>
        obtain ⟨v, s3⟩ := q
        simp only [h32, Except.ok.injEq, Prod.mk.injEq] at h
        obtain ⟨h2, h3, h4⟩ := readSized_ok h32
        have hd : List.drop 33 (true :: s2) = List.drop 32 s2 := rfl
        right
        refine ⟨v, h.1.symm, ?_, ?_⟩
        · rw [hs, hd, ← h.2, h3]
        · rw [hs, List.length_cons]; omega

theorem i32cast_nonneg_small {n : Nat} (h : n < 2 ^ 31) : i32cast n = (n : Int) := by
  unfold i32cast; rw [if_pos h]

theorem i32cast_bounds (n : Nat) (h : n < 2 ^ 32) :
    -(2 ^ 31) ≤ i32cast n ∧ i32cast n < 2 ^ 31 := by
  unfold i32cast; split <;> omega

theorem wrap32_bounds (z : Int) : -(2 ^ 31) ≤ wrap32 z ∧ wrap32 z < 2 ^ 31 := by
  unfold wrap32; omega

theorem wrap32_eq_self {z : Int} (h1 : -(2 ^ 31) ≤ z) (h2 : z < 2 ^ 31) :
    wrap32 z = z := by
  unfold wrap32; omega

theorem wrap32_of_ge {z : Int} (h1 : 2 ^ 31 ≤ z) (h2 : z < 2 ^ 31 + 2 ^ 32) :
    wrap32 z = z - 2 ^ 32 := by
  unfold wrap32; omega

theorem indexStep_gt {index : Int} {diff : Nat} (hd : diff < 2 ^ 31)
    (hlo : -(2 ^ 31) ≤ index) (hhi : index < 2 ^ 31)
    (hnn : 0 ≤ wrap32 (index + i32cast diff + 1)) :
    index < wrap32 (index + i32cast diff + 1) := by
  rw [i32cast_nonneg_small hd] at hnn ⊢
  by_cases hc : index + (diff : Int) + 1 < 2 ^ 31
  · rw [wrap32_eq_self (by omega) hc] at hnn ⊢; omega
  · rw [wrap32_of_ge (by omega) (by omega)] at hnn ⊢; omega

/-- C7: read_bit_var reads a two-bit selector and then exactly
bit_var_width selector further bits, where the width table is 0 to 4,
1 to 8, 2 to 12 and 3 to 32; the payload bits are interpreted
little-endian as the unsigned value, and exactly 2 + width bits are
consumed in total. -/
theorem c7_ubitvar_widths {s : Bits} {sel : Nat} {s1 : Bits}
    (h : readSized 2 s = .ok (sel, s1)) :
    read_bit_var s = readSized (bit_var_width sel) s1 ∧
    bit_var_width 0 = 4 ∧ bit_var_width 1 = 8 ∧ bit_var_width 2 = 12 ∧
    bit_var_width 3 = 32 ∧
    (∀ v s2, read_bit_var s = .ok (v, s2) →
      v = bitsToNat (s1.take (bit_var_width sel)) ∧
      s2 = s1.drop (bit_var_width sel) ∧
      s.length = s2.length + 2 + bit_var_width sel ∧ v < 2 ^ bit_var_width sel) := by
  have hb : read_bit_var s = readSized (bit_var_width sel) s1 := by
    unfold read_bit_var; rw [h]
  refine ⟨hb, rfl, rfl, rfl, rfl, ?_⟩
  intro v s2 hv
  rw [hb] at hv
  obtain ⟨h1, h2, h3⟩ := readSized_ok hv
  obtain ⟨h4, h5, h6⟩ := readSized_ok h
  have hlen : s2.length = s1.length - bit_var_width sel := by
    rw [h2, List.length_drop]
  have hlen1 : s1.length = s.length - 2 := by rw [h5, List.length_drop]
  exact ⟨h1, h2, by omega, readSized_lt hv⟩

/-- Witness for C7 at a concrete stream: selector two, twelve payload
bits holding the value five. -/
theorem c7_witness :
    read_bit_var ([false, true] ++ natToBits 12 5) = readSized 12 (natToBits 12 5) ∧
    read_bit_var ([false, true] ++ natToBits 12 5) = .ok (5, []) :=
  ⟨(@c7_ubitvar_widths ([false, true] ++ natToBits 12 5) 2 (natToBits 12 5) rfl).1,
    rfl⟩

/-- Duplicate-freedom of a prop list by definition identity. -/
abbrev DistinctDefs (l : List SendProp) : Prop :=
  l.Pairwise (fun a b => a.definition ≠ b.definition)

theorem mem_applyProp {l : List SendProp} {p q : SendProp}
    (h : q ∈ applyProp l p) :
    (∃ r ∈ l, q.definition = r.definition) ∨ q.definition = p.definition := by
  induction l with
  | nil =>
    right
    simp only [applyProp, List.mem_singleton] at h
    rw [h]
  | cons a t ih =>
    unfold applyProp at h
    split at h
    · rcases List.mem_cons.mp h with h | h
      · left; exact ⟨a, List.mem_cons_self a t, by rw [h]⟩
      · left
        exact ⟨q, List.mem_cons_of_mem a h, rfl⟩
    · rcases List.mem_cons.mp h with h | h
      · left; exact ⟨a, List.mem_cons_self a t, by rw [h]⟩
      · rcases ih h with ⟨r, hr, he⟩ | he
        · left; exact ⟨r, List.mem_cons_of_mem a hr, he⟩
        · right; exact he

theorem distinct_applyProp {l : List SendProp} {p : SendProp}
    (h : DistinctDefs l) : DistinctDefs (applyProp l p) := by
  induction l with
  | nil => simp [applyProp]
  | cons a t ih =>
    have h1 := (List.pairwise_cons.mp h).1
    have h2 := (List.pairwise_cons.mp h).2
    unfold applyProp
    split
    · exact List.pairwise_cons.mpr ⟨fun b hb => h1 b hb, h2⟩
    · rename_i hne
      refine List.pairwise_cons.mpr ⟨?_, ih h2⟩
      intro b hb hc
      rcases mem_applyProp hb with ⟨r, hr, he⟩ | he
      · exact h1 r hr (by rw [hc, he])
      · exact hne (by rw [hc, he])

theorem distinct_foldl_applyProp (incoming : List SendProp) :
    ∀ l, DistinctDefs l → DistinctDefs (incoming.foldl applyProp l) := by
  induction incoming with
  | nil => intro l h; simpa using h
  | cons p rest ih =>
    intro l h
    simp only [List.foldl_cons]
    exact ih _ (distinct_applyProp h)

/-- C2: apply_update replaces the value of an existing prop with an equal
definition and appends otherwise, so an entity whose props are
duplicate-free by definition identity stays duplicate-free after any
update. -/
theorem c2_apply_update_distinct (entity : PacketEntity) (props : List SendProp)
    (h : DistinctDefs entity.props) :
    DistinctDefs (entity.apply_update props).props := by
  unfold PacketEntity.apply_update
  exact distinct_foldl_applyProp props entity.props h

/-- Witness for C2: a concrete entity with one prop receives an update
that overwrites that prop and appends a second one. -/
theorem c2_witness :
    DistinctDefs ((PacketEntity.apply_update
      ⟨⟨0, 0, 0⟩, 0, [⟨⟨0, 1, .int, 0, 0, 0, 0, 0, Option.none⟩, .integer 1⟩],
        true, .enter, 0, Option.none⟩
      [⟨⟨0, 1, .int, 0, 0, 0, 0, 0, Option.none⟩, .integer 2⟩,
        ⟨⟨0, 2, .int, 0, 0, 0, 0, 0, Option.none⟩, .integer 3⟩]).props) :=
  c2_apply_update_distinct _ _ (by decide)

theorem and255_eq_mod (n : Nat) : n &&& 255 = n % 256 :=
  Nat.and_pow_two_sub_one_eq_mod n 8

/-- C10 counterexample: the wire assister ids 0 and 16384 are congruent
modulo 256, yet the death records they produce differ — the first yields
the UserId key 0, the second yields no assister key at all, because the
mask is applied only below the 16 * 1024 threshold. -/
theorem c10_counterexample :
    (16384 : Nat) % 256 = (0 : Nat) % 256 ∧
    (Death.from_event ⟨[], 1, 2, 0⟩ 5).assister = some 0 ∧
    (Death.from_event ⟨[], 1, 2, 16384⟩ 5).assister = Option.none :=
  ⟨rfl, rfl, rfl⟩

/-- C10 amended: UserId::from and the spawn and death records collapse
wire ids modulo 256 — unconditionally for the users-table id, the
spawning user, the attacker and the victim, and for the assister whenever
the two wire values sit on the same side of the 16 * 1024 threshold
(above it no assister is recorded at all). -/
theorem c10_mask_congruence :
    (∀ a b : Nat, a % 256 = b % 256 → UserId.fromU32 a = UserId.fromU32 b) ∧
    (∀ e1 e2 : PlayerSpawnEvent, ∀ t : Nat,
      e1.user_id % 256 = e2.user_id % 256 → e1.class_number = e2.class_number →
      e1.team = e2.team → Spawn.from_event e1 t = Spawn.from_event e2 t) ∧
    (∀ e1 e2 : PlayerDeathEvent, ∀ t : Nat,
      e1.weapon = e2.weapon → e1.user_id % 256 = e2.user_id % 256 →
      e1.attacker % 256 = e2.attacker % 256 →
      e1.assister % 256 = e2.assister % 256 →
      (e1.assister < 16 * 1024 ↔ e2.assister < 16 * 1024) →
      Death.from_event e1 t = Death.from_event e2 t) := by
  refine ⟨?_, ?_, ?_⟩
  · intro a b h
    unfold UserId.fromU32
    rw [and255_eq_mod, and255_eq_mod, h]
  · intro e1 e2 t hu hc ht
    unfold Spawn.from_event
    simp only [and255_eq_mod]
    rw [hu, hc, ht]
  · intro e1 e2 t hw hu ha hs hiff
    unfold Death.from_event
    simp only [and255_eq_mod]
    rw [hw, hu, ha]
    by_cases hlt : e1.assister < 16 * 1024
    · rw [if_pos hlt, if_pos (hiff.mp hlt), hs]
    · rw [if_neg hlt, if_neg (fun hc2 => hlt (hiff.mpr hc2))]

/-- Witness for C10 at concrete events: user ids 1 and 257, attackers 257
and 1, assisters 3 and 259 produce identical death records. -/
theorem c10_witness :
    Death.from_event ⟨[], 1, 257, 3⟩ 9 = Death.from_event ⟨[], 257, 1, 259⟩ 9 :=
  c10_mask_congruence.2.2 ⟨[], 1, 257, 3⟩ ⟨[], 257, 1, 259⟩ 9 rfl (by decide)
    (by decide) (by decide) (by decide)

/-- Concrete send-prop definition for the C1 scenario. -/
def c1Def : SendPropDefinition := ⟨7, 1, .int, 0, 32, 0, 0, 0, Option.none⟩

/-- Concrete send table of the class entered in the C1 scenario. -/
def c1Table : SendTable := ⟨77, [c1Def]⟩

/-- Raw static baseline stored under the server-class id 1: it decodes to
one prop at flattened index 0. -/
def c1RawA : Bits := [true, false, false, false, false, false, false, false]

/-- Raw static baseline stored under class id 0, which is also the class
index of the entered class: it decodes to an empty prop list. -/
def c1RawB : Bits := [false]

/-- Parser state of the C1 scenario: a single server class with id 1
sitting at index 0 of the class list, static baselines present under both
the id and the index, and no instance baselines. -/
def c1State : ParserState :=
  ⟨[(77, c1Table)], [⟨1, 5, 77⟩], [], [], [(1, c1RawA), (0, c1RawB)], ([], [])⟩

/-- Enter payload of the C1 scenario: a one-bit class index (zero) and a
ten-bit serial number. -/
def c1Stream : Bits := [false] ++ natToBits 10 0

/-- C1, the divergence at the failing input: the entered class has id 1
and class index 0; read_enter checks for a static baseline under the
server class id but then fetches the props under the class index, so the
entity starts from the empty baseline stored under id 0 instead of the
one-prop baseline stored under the entity's server-class id 1 that the
claim selects. -/
theorem c1_static_baseline_key_divergence :
    read_enter trivialReader c1Stream 0 c1State 0 =
      .ok (⟨⟨1, 5, 77⟩, 0, [], true, .enter, 0, Option.none⟩, []) ∧
    read_update trivialReader c1Table c1RawA =
      .ok ([⟨c1Def, .integer 0⟩], []) ∧
    ([] : List SendProp) ≠ [⟨c1Def, .integer 0⟩] :=
  ⟨rfl, rfl, by simp⟩

/-- C8: read_enter first reads exactly log_base2(server class count) + 1
bits as the class index — log_base2 being the ceiling base-two logarithm
modelled from the spec — then exactly ten bits as the serial number; the
baseline selection consumes no further stream bits, so the stream after
read_enter is the stream after those two reads. -/
theorem c8_enter_widths {pv : PropValueReader} {s : Bits} {eid : Nat}
    {state : ParserState} {bl : Nat} {ent : PacketEntity} {s2 : Bits}
    (h : read_enter pv s eid state bl = .ok (ent, s2)) :
    ∃ ci d1 serial,
      readSized (log_base2 state.server_classes.length + 1) s = .ok (ci, d1) ∧
      readSized 10 d1 = .ok (serial, s2) ∧ ent.serial_number = serial := by
  unfold read_enter at h
  cases h1 : readSized (log_base2 state.server_classes.length + 1) s with
  | error e => simp only [h1] at h; exact Except.noConfusion h
  | ok p =>
    obtain ⟨ci, d1⟩ := p
    simp only [h1] at h
    cases h2 : state.server_classes.get? ci with
    | none => simp only [h2] at h; exact Except.noConfusion h
    | some sc =>
      simp only [h2] at h
      cases h3 : readSized 10 d1 with
      | error e => simp only [h3] at h; exact Except.noConfusion h
      | ok q =>
        obtain ⟨serial, d2⟩ := q
        simp only [h3] at h
        cases h4 : alookup sc.data_table state.send_tables with
        | none => simp only [h4] at h; exact Except.noConfusion h
        | some tbl =>
          simp only [h4] at h
          cases h5 : alookup eid (state.instance_baseline bl) with
          | some baseline =>
            simp only [h5, Except.ok.injEq, Prod.mk.injEq] at h
            exact ⟨ci, d1, serial, rfl, by rw [h.2] at h3; exact h3,
              by rw [← h.1]⟩
          | none =>
            simp only [h5] at h
            cases h6 : alookup sc.id state.static_baselines with
            | some raw =>
              simp only [h6] at h
              cases h7 : state.get_static_baseline pv ci tbl with
              | error e => simp only [h7] at h; exact Except.noConfusion h
              | ok props =>
                simp only [h7, Except.ok.injEq, Prod.mk.injEq] at h
                exact ⟨ci, d1, serial, rfl, by rw [h.2] at h3; exact h3,
                  by rw [← h.1]⟩
            | none =>
              simp only [h6, Except.ok.injEq, Prod.mk.injEq] at h
              exact ⟨ci, d1, serial, rfl, by rw [h.2] at h3; exact h3,
                by rw [← h.1]⟩

/-- Parser state of the C8 witness: one server class, so the class index
is one bit wide. -/
def c8State : ParserState := ⟨[(3, ⟨3, []⟩)], [⟨0, 0, 3⟩], [], [], [], ([], [])⟩

/-- Witness for C8 at a concrete enter payload: one class-index bit and a
ten-bit serial holding five. -/
theorem c8_witness :
    ∃ ci d1 serial,
      readSized (log_base2 c8State.server_classes.length + 1)
        ([false] ++ natToBits 10 5) = .ok (ci, d1) ∧
      readSized 10 d1 = .ok (serial, []) ∧
      (⟨⟨0, 0, 3⟩, 4, [], true, PVS.enter, 5, Option.none⟩ :
        PacketEntity).serial_number = serial :=
  @c8_enter_widths trivialReader ([false] ++ natToBits 10 5) 4 c8State 0
    ⟨⟨0, 0, 3⟩, 4, [], true, .enter, 5, Option.none⟩ [] rfl

theorem readEventEntriesAux_no_none : ∀ fuel s entries s1,
    readEventEntriesAux fuel s = .ok (entries, s1) →
    ∀ entry ∈ entries, entry.kind ≠ GameEventValueType.none := by
  intro fuel
  induction fuel with
  | zero => intro s entries s1 h; exact Except.noConfusion h
  | succ n ih =>
    intro s entries s1 h
    unfold readEventEntriesAux at h
    cases ht : readEventValueType s with
    | error e => simp only [ht] at h; exact Except.noConfusion h
    | ok p =>
      obtain ⟨kind, t1⟩ := p
      simp only [ht] at h
      split at h
      · simp only [Except.ok.injEq, Prod.mk.injEq] at h
        intro entry he
        rw [← h.1] at he
        exact absurd he (List.not_mem_nil _)
      · rename_i hk
        cases hc : readCString t1 with
        | error e => simp only [hc] at h; exact Except.noConfusion h
        | ok q =>
          obtain ⟨nm, t2⟩ := q
          simp only [hc] at h
          cases hr : readEventEntriesAux n t2 with
          | error e => simp only [hr] at h; exact Except.noConfusion h
          | ok r =>
            obtain ⟨es, t3⟩ := r
            simp only [hr, Except.ok.injEq, Prod.mk.injEq] at h
            intro entry he
            rw [← h.1] at he
            rcases List.mem_cons.mp he with he | he
            · rw [he]; exact hk
            · exact ih t2 es t3 hr entry he

theorem GameEventDefinition_read_no_none {s : Bits} {defn : GameEventDefinition}
    {s1 : Bits} (h : GameEventDefinition.read s = .ok (defn, s1)) :
    ∀ entry ∈ defn.entries, entry.kind ≠ GameEventValueType.none := by
  unfold GameEventDefinition.read at h
  cases h9 : readSized 9 s with
  | error e => simp only [h9] at h; exact Except.noConfusion h
  | ok p =>
    obtain ⟨tid, t1⟩ := p
    simp only [h9] at h
    cases hc : readCString t1 with
    | error e => simp only [hc] at h; exact Except.noConfusion h
    | ok q =>
      obtain ⟨nm, t2⟩ := q
      simp only [hc] at h
      cases he : readEventEntriesAux (t2.length + 1) t2 with
      | error e => simp only [he] at h; exact Except.noConfusion h
      | ok r =>
        obtain ⟨es, t3⟩ := r
        simp only [he, Except.ok.injEq, Prod.mk.injEq] at h
        rw [← h.1]
        exact readEventEntriesAux_no_none (t2.length + 1) t2 es t3 he

theorem readEventDefinitions_ok : ∀ count data defns dataRest,
    readEventDefinitions count data = .ok (defns, dataRest) →
    defns.length = count ∧
    ∀ defn ∈ defns, ∀ entry ∈ defn.entries,
      entry.kind ≠ GameEventValueType.none := by
  intro count
  induction count with
  | zero =>
    intro data defns dataRest h
    simp only [readEventDefinitions, Except.ok.injEq, Prod.mk.injEq] at h
    rw [← h.1]
    exact ⟨rfl, fun defn hd => absurd hd (List.not_mem_nil _)⟩
  | succ n ih =>
    intro data defns dataRest h
    unfold readEventDefinitions at h
    cases hr : GameEventDefinition.read data with
    | error e => simp only [hr] at h; exact Except.noConfusion h
    | ok p =>
      obtain ⟨defn, d1⟩ := p
      simp only [hr] at h
      cases hs : readEventDefinitions n d1 with
      | error e => simp only [hs] at h; exact Except.noConfusion h
      | ok q =>
        obtain ⟨defns1, d2⟩ := q
        simp only [hs, Except.ok.injEq, Prod.mk.injEq] at h
        obtain ⟨hl, hm⟩ := ih d1 defns1 d2 hs
        rw [← h.1]
        refine ⟨by rw [List.length_cons, hl], ?_⟩
        intro dd hd
        rcases List.mem_cons.mp hd with hd | hd
        · rw [hd]; exact GameEventDefinition_read_no_none hr
        · exact hm dd hd

theorem GameEventListMessage_read_ok {s : Bits} {msg : GameEventListMessage}
    {rest : Bits} (h : GameEventListMessage.read s = .ok (msg, rest)) :
    ∃ count len s1 s2 data s3 dataRest,
      readSized 9 s = .ok (count, s1) ∧ readSized 20 s1 = .ok (len, s2) ∧
      readBits len s2 = .ok (data, s3) ∧
      readEventDefinitions count data = .ok (msg.event_list, dataRest) ∧
      rest = s3 := by
  unfold GameEventListMessage.read at h
  cases h9 : readSized 9 s with
  | error e => simp only [h9] at h; exact Except.noConfusion h
  | ok p =>
    obtain ⟨count, s1⟩ := p
    simp only [h9] at h
    cases h20 : readSized 20 s1 with
    | error e => simp only [h20] at h; exact Except.noConfusion h
    | ok q =>
      obtain ⟨len, s2⟩ := q
      simp only [h20] at h
      cases hb : readBits len s2 with
      | error e => simp only [hb] at h; exact Except.noConfusion h
      | ok r =>
        obtain ⟨data, s3⟩ := r
        simp only [hb] at h
        cases hd : readEventDefinitions count data with
        | error e => simp only [hd] at h; exact Except.noConfusion h
        | ok u =>
          obtain ⟨defns, dataRest⟩ := u
          simp only [hd, Except.ok.injEq, Prod.mk.injEq] at h
          refine ⟨count, len, s1, s2, data, s3, dataRest, rfl, h20, hb, ?_, h.2.symm⟩
          rw [← h.1]
          exact hd

/-- C6: GameEventListMessage::read consumes a 9-bit count and a 20-bit
length, carves exactly length bits, and reads exactly count definitions
from the carved stream, so the parent cursor ends right after the carved
body; the entry loop of each definition terminates on kind None, which
therefore never appears among the entry kinds of the result; and for
count zero and length zero the result is the empty definition list with
the cursor advanced by exactly 29 bits. -/
theorem c6_event_list_shape :
    (∀ s count len s1 s2 : _, readSized 9 s = .ok (count, s1) →
      readSized 20 s1 = .ok (len, s2) → count = 0 → len = 0 →
      GameEventListMessage.read s = .ok (⟨[]⟩, s2) ∧ s2 = s.drop 29) ∧
    (∀ s msg rest, GameEventListMessage.read s = .ok (msg, rest) →
      ∀ defn ∈ msg.event_list, ∀ entry ∈ defn.entries,
        entry.kind ≠ GameEventValueType.none) ∧
    (∀ s count len s1 s2 data s3 msg rest,
      readSized 9 s = .ok (count, s1) → readSized 20 s1 = .ok (len, s2) →
      readBits len s2 = .ok (data, s3) →
      GameEventListMessage.read s = .ok (msg, rest) →
      rest = s3 ∧ msg.event_list.length = count ∧
      ∃ dataRest, readEventDefinitions count data = .ok (msg.event_list, dataRest)) := by
  refine ⟨?_, ?_, ?_⟩
  · intro s count len s1 s2 h1 h2 hc hl
    subst hc; subst hl
    obtain ⟨hv1, hs1, hl1⟩ := readSized_ok h1
    obtain ⟨hv2, hs2, hl2⟩ := readSized_ok h2
    constructor
    · unfold GameEventListMessage.read
      simp only [h1, h2, readBits_eq_ok (Nat.zero_le s2.length), List.take_zero,
        List.drop_zero, readEventDefinitions]
    · rw [hs2, hs1, List.drop_drop]
  · intro s msg rest h
    obtain ⟨count, len, s1, s2, data, s3, dataRest, h1, h2, hb, hd, hr⟩ :=
      GameEventListMessage_read_ok h
    exact (readEventDefinitions_ok count data msg.event_list dataRest hd).2
  · intro s count len s1 s2 data s3 msg rest h1 h2 hb h
    obtain ⟨count1, len1, t1, t2, data1, t3, dataRest, g1, g2, gb, gd, gr⟩ :=
      GameEventListMessage_read_ok h
    rw [h1, Except.ok.injEq, Prod.mk.injEq] at g1
    obtain ⟨hc, ht1⟩ := g1
    subst hc; subst ht1
    rw [h2, Except.ok.injEq, Prod.mk.injEq] at g2
    obtain ⟨hl, ht2⟩ := g2
    subst hl; subst ht2
    rw [hb, Except.ok.injEq, Prod.mk.injEq] at gb
    obtain ⟨hd1, ht3⟩ := gb
    subst hd1; subst ht3
    exact ⟨gr, (readEventDefinitions_ok count data msg.event_list dataRest gd).1,
      dataRest, gd⟩

/-- Witness for C6: the all-zero 29-bit header carves an empty body and
yields the empty definition list. -/
theorem c6_witness :
    GameEventListMessage.read (List.replicate 29 false) = .ok (⟨[]⟩, []) ∧
    ([] : Bits) = (List.replicate 29 false).drop 29 :=
  (c6_event_list_shape.1 (List.replicate 29 false) 0 0
    (List.replicate 20 false) [] rfl rfl rfl rfl)

theorem readBits_error {n : Nat} {s : Bits} {e : ParseError}
    (h : readBits n s = .error e) : e = .notEnoughData := by
  unfold readBits at h
  split at h
  · exact Except.noConfusion h
  · injection h with h1; exact h1.symm

theorem readSized_error {n : Nat} {s : Bits} {e : ParseError}
    (h : readSized n s = .error e) : e = .notEnoughData := by
  unfold readSized at h
  cases hb : readBits n s with
  | error e1 =>
    simp only [hb] at h
    injection h with h1
    rw [← h1]
    exact readBits_error hb
  | ok p => obtain ⟨v, s1⟩ := p; simp only [hb] at h; exact Except.noConfusion h

theorem readBool_error {s : Bits} {e : ParseError}
    (h : readBool s = .error e) : e = .notEnoughData := by
  unfold readBool at h
  cases s with
  | nil => injection h with h1; exact h1.symm
  | cons b t => exact Except.noConfusion h

theorem readCStringAux_error : ∀ fuel s e, readCStringAux fuel s = .error e →
    e = ParseError.notEnoughData := by
  intro fuel
  induction fuel with
  | zero => intro s e h; injection h with h1; exact h1.symm
  | succ n ih =>
    intro s e h
    unfold readCStringAux at h
    cases hb : readSized 8 s with
    | error e1 =>
      simp only [hb] at h
      injection h with h1
      rw [← h1]
      exact readSized_error hb
    | ok p =>
      obtain ⟨b, s1⟩ := p
      simp only [hb] at h
      split at h
      · exact Except.noConfusion h
      · cases hr : readCStringAux n s1 with
        | error e1 =>
          simp only [hr] at h
          injection h with h1
          rw [← h1]
          exact ih s1 e1 hr
        | ok q => obtain ⟨bs, s2⟩ := q; simp only [hr] at h; exact Except.noConfusion h

theorem readCString_error {s : Bits} {e : ParseError}
    (h : readCString s = .error e) : e = .notEnoughData :=
  readCStringAux_error (s.length + 1) s e h

theorem read_event_value_none {s : Bits} {entry : GameEventEntry}
    (h : entry.kind = GameEventValueType.none) :
    read_event_value s entry = .error .noneValue := by
  unfold read_event_value
  rw [h]

theorem read_event_value_error {s : Bits} {entry : GameEventEntry} {e : ParseError}
    (h : read_event_value s entry = .error e) :
    e = .notEnoughData ∨ (e = .noneValue ∧ entry.kind = GameEventValueType.none) := by
  unfold read_event_value at h
  cases hk : entry.kind <;> rw [hk] at h
  · injection h with h1; exact Or.inr ⟨h1.symm, rfl⟩
  · cases hc : readCString s with
    | error e1 =>
      simp only [hc] at h; injection h with h1; rw [← h1]
      exact Or.inl (readCString_error hc)
    | ok p => obtain ⟨v, s1⟩ := p; simp only [hc] at h; exact Except.noConfusion h
  · cases hc : readSized 32 s with
    | error e1 =>
      simp only [hc] at h; injection h with h1; rw [← h1]
      exact Or.inl (readSized_error hc)
    | ok p => obtain ⟨v, s1⟩ := p; simp only [hc] at h; exact Except.noConfusion h
  · cases hc : readSized 32 s with
    | error e1 =>
      simp only [hc] at h; injection h with h1; rw [← h1]
      exact Or.inl (readSized_error hc)
    | ok p => obtain ⟨v, s1⟩ := p; simp only [hc] at h; exact Except.noConfusion h
  · cases hc : readSized 16 s with
    | error e1 =>
      simp only [hc] at h; injection h with h1; rw [← h1]
      exact Or.inl (readSized_error hc)
    | ok p => obtain ⟨v, s1⟩ := p; simp only [hc] at h; exact Except.noConfusion h
  · cases hc : readSized 8 s with
    | error e1 =>
      simp only [hc] at h; injection h with h1; rw [← h1]
      exact Or.inl (readSized_error hc)
    | ok p => obtain ⟨v, s1⟩ := p; simp only [hc] at h; exact Except.noConfusion h
  · cases hc : readBool s with
    | error e1 =>
      simp only [hc] at h; injection h with h1; rw [← h1]
      exact Or.inl (readBool_error hc)
    | ok p => obtain ⟨v, s1⟩ := p; simp only [hc] at h; exact Except.noConfusion h
  · exact Except.noConfusion h

theorem readEventValues_error : ∀ entries : List GameEventEntry, ∀ s : Bits,
    ∀ e : ParseError, readEventValues entries s = .error e →
    e = .notEnoughData ∨ e = .noneValue := by
  intro entries
  induction entries with
  | nil => intro s e h; exact Except.noConfusion h
  | cons entry rest ih =>
    intro s e h
    unfold readEventValues at h
    cases hv : read_event_value s entry with
    | error e1 =>
      simp only [hv] at h
      injection h with h1
      rw [← h1]
      rcases read_event_value_error hv with h2 | h2
      · exact Or.inl h2
      · exact Or.inr h2.1
    | ok p =>
      obtain ⟨v, s1⟩ := p
      simp only [hv] at h
      cases hr : readEventValues rest s1 with
      | error e1 =>
        simp only [hr] at h
        injection h with h1
        rw [← h1]
        exact ih s1 e1 hr
      | ok q => obtain ⟨vs, s2⟩ := q; simp only [hr] at h; exact Except.noConfusion h

/-- Event decoding reaches an entry of kind None: every earlier entry
decodes successfully and the loop then meets the None entry. -/
inductive ReachesNone : List GameEventEntry → Bits → Prop where
  | here {entry : GameEventEntry} {rest : List GameEventEntry} {s : Bits}
      (h : entry.kind = GameEventValueType.none) : ReachesNone (entry :: rest) s
  | there {entry : GameEventEntry} {rest : List GameEventEntry} {s : Bits}
      {v : GameEventValue} {s1 : Bits}
      (hk : entry.kind ≠ GameEventValueType.none)
      (hv : read_event_value s entry = .ok (v, s1))
      (hr : ReachesNone rest s1) : ReachesNone (entry :: rest) s

theorem readEventValues_noneValue_iff : ∀ entries : List GameEventEntry, ∀ s : Bits,
    readEventValues entries s = .error .noneValue ↔ ReachesNone entries s := by
  intro entries
  induction entries with
  | nil =>
    intro s
    constructor
    · intro h; exact Except.noConfusion h
    · intro h; cases h
  | cons entry rest ih =>
    intro s
    constructor
    · intro h
      unfold readEventValues at h
      cases hv : read_event_value s entry with
      | error e1 =>
        simp only [hv] at h
        injection h with h1
        rcases read_event_value_error hv with h2 | h2
        · rw [h1] at h2; exact absurd h2 (by intro hc; exact ParseError.noConfusion hc)
        · exact ReachesNone.here h2.2
      | ok p =>
        obtain ⟨v, s1⟩ := p
        simp only [hv] at h
        cases hr : readEventValues rest s1 with
        | error e1 =>
          simp only [hr] at h
          injection h with h1
          rw [h1] at hr
          have hk : entry.kind ≠ GameEventValueType.none := by
            intro hc
            rw [read_event_value_none hc] at hv
            exact Except.noConfusion hv
          exact ReachesNone.there hk hv (ih s1 |>.mp hr)
        | ok q => obtain ⟨vs, s2⟩ := q; simp only [hr] at h; exact Except.noConfusion h
    · intro h
      cases h with
      | here hk =>
        simp only [readEventValues, read_event_value_none hk]
      | there hk hv hr =>
        rename_i v1 t1
        simp only [readEventValues, hv, (ih t1).mpr hr]

/-- C4: GameEventMessage parsing fails with UnknownType exactly when the
9-bit event-type id read from the carved sub-stream has no entry in
event_definitions; with the definition present it fails with NoneValue
exactly when the value loop reaches an entry of kind None; and a Local
entry consumes no bits and yields the Local sentinel. -/
theorem c4_event_errors {s : Bits} {state : ParserState} {len : Nat}
    {s1 data rest : Bits} {tid : Nat} {d1 : Bits}
    (h11 : readSized 11 s = .ok (len, s1))
    (hcarve : readBits len s1 = .ok (data, rest))
    (h9 : readSized 9 data = .ok (tid, d1)) :
    ((GameEventMessage.parse s state = .error .unknownType) ↔
      state.event_definitions.get? tid = Option.none) ∧
    (∀ defn, state.event_definitions.get? tid = some defn →
      ((GameEventMessage.parse s state = .error .noneValue) ↔
        ReachesNone defn.entries d1)) ∧
    (∀ t entry, entry.kind = GameEventValueType.local →
      read_event_value t entry = .ok (.local, t)) := by
  have hparse : GameEventMessage.parse s state =
      (match state.event_definitions.get? tid with
       | Option.none => .error .unknownType
       | some defn =>
         match readEventValues defn.entries d1 with
         | .error e => .error e
         | .ok (values, _) =>
           match GameEvent.from_raw_event ⟨defn.event_type, values⟩ with
           | .error e => .error e
           | .ok event => .ok (⟨event⟩, rest)) := by
    unfold GameEventMessage.parse
    simp only [h11, hcarve, h9]
  have hlocal : ∀ t : Bits, ∀ entry : GameEventEntry,
      entry.kind = GameEventValueType.local →
      read_event_value t entry = .ok (.local, t) := by
    intro t entry hk
    unfold read_event_value
    rw [hk]
  cases hget : state.event_definitions.get? tid with
  | none =>
    simp only [hget] at hparse
    refine ⟨⟨fun _ => rfl, fun _ => hparse⟩, ?_, hlocal⟩
    intro defn hd
    exact Option.noConfusion hd
  | some defn =>
    simp only [hget] at hparse
    have hne : GameEventMessage.parse s state ≠ .error .unknownType := by
      rw [hparse]
      cases hv : readEventValues defn.entries d1 with
      | error e1 =>
        intro hc
        injection hc with h1
        rcases readEventValues_error defn.entries d1 e1 hv with h2 | h2 <;>
          rw [h2] at h1 <;> exact ParseError.noConfusion h1
      | ok p =>
        obtain ⟨values, s2⟩ := p
        intro hc
        exact Except.noConfusion hc
    refine ⟨⟨fun hc => absurd hc hne, fun hc => Option.noConfusion hc⟩, ?_, hlocal⟩
    intro defn2 hd
    injection hd with hd1
    rw [← hd1]
    rw [← readEventValues_noneValue_iff defn.entries d1]
    rw [hparse]
    cases hv : readEventValues defn.entries d1 with
    | error e1 =>
      constructor
      · intro hc; injection hc with h1; rw [h1]
      · intro hc; injection hc with h1; rw [h1]
    | ok p =>
      obtain ⟨values, s2⟩ := p
      constructor
      · intro hc; exact Except.noConfusion hc
      · intro hc; exact Except.noConfusion hc

/-- Parser state of the C4 witness: one definition whose single entry has
kind None. -/
def c4State : ParserState :=
  ⟨[], [], [⟨0, [], [], [⟨[], .none⟩]⟩], [], [], ([], [])⟩

/-- Witness for C4 at a concrete stream: an 11-bit length of nine and a
9-bit type id of zero select the definition with a None entry, and the
parse fails with NoneValue. -/
theorem c4_witness :
    GameEventMessage.parse (natToBits 11 9 ++ natToBits 9 0) c4State =
      .error .noneValue :=
  ((@c4_event_errors (natToBits 11 9 ++ natToBits 9 0) c4State 9 (natToBits 9 0)
      (natToBits 9 0) [] 0 [] rfl rfl rfl).2.1 ⟨0, [], [], [⟨[], .none⟩]⟩
      rfl).mpr (ReachesNone.here rfl)

theorem PacketEntitiesMessage_parse_ok {pv : PropValueReader} {s : Bits}
    {state : ParserState} {msg : PacketEntitiesMessage} {r1 : Bits}
    (h : PacketEntitiesMessage.parse pv s state = .ok (msg, r1)) :
    ∃ maxEntries delta baseLine updatedEntries len updatedBaseLine
      s1 s2 s3 s4 s5 s6 data data1 entities removedEntities removedRest,
      readSized 11 s = .ok (maxEntries, s1) ∧
      readOptionU32 s1 = .ok (delta, s2) ∧
      readSized 1 s2 = .ok (baseLine, s3) ∧
      readSized 11 s3 = .ok (updatedEntries, s4) ∧
      readSized 20 s4 = .ok (len, s5) ∧
      readBool s5 = .ok (updatedBaseLine, s6) ∧
      readBits len s6 = .ok (data, r1) ∧
      parseEntitiesLoop pv state baseLine updatedEntries data (-1) =
        .ok (entities, data1) ∧
      (if delta.isSome then readRemovedEntities data1 else .ok ([], data1)) =
        .ok (removedEntities, removedRest) ∧
      msg = ⟨entities, removedEntities, maxEntries, delta, baseLine,
        updatedBaseLine⟩ := by
  unfold PacketEntitiesMessage.parse at h
  cases h1 : readSized 11 s with
  | error e => simp only [h1] at h; exact Except.noConfusion h
  | ok p1 =>
  obtain ⟨maxEntries, s1⟩ := p1
  simp only [h1, bind, Except.bind] at h
  cases h2 : readOptionU32 s1 with
  | error e => simp only [h2] at h; exact Except.noConfusion h
  | ok p2 =>
  obtain ⟨delta, s2⟩ := p2
  simp only [h2] at h
  cases h3 : readSized 1 s2 with
  | error e => simp only [h3] at h; exact Except.noConfusion h
  | ok p3 =>
  obtain ⟨baseLine, s3⟩ := p3
  simp only [h3] at h
  cases h4 : readSized 11 s3 with
  | error e => simp only [h4] at h; exact Except.noConfusion h
  | ok p4 =>
  obtain ⟨updatedEntries, s4⟩ := p4
  simp only [h4] at h
  cases h5 : readSized 20 s4 with
  | error e => simp only [h5] at h; exact Except.noConfusion h
  | ok p5 =>
  obtain ⟨len, s5⟩ := p5
  simp only [h5] at h
  cases h6 : readBool s5 with
  | error e => simp only [h6] at h; exact Except.noConfusion h
  | ok p6 =>
  obtain ⟨updatedBaseLine, s6⟩ := p6
  simp only [h6] at h
  cases h7 : readBits len s6 with
  | error e => simp only [h7] at h; exact Except.noConfusion h
  | ok p7 =>
  obtain ⟨data, rest⟩ := p7
  simp only [h7] at h
  cases h8 : parseEntitiesLoop pv state baseLine updatedEntries data (-1) with
  | error e => simp only [h8] at h; exact Except.noConfusion h
  | ok p8 =>
  obtain ⟨entities, data1⟩ := p8
  simp only [h8] at h
  cases h9 : (if delta.isSome then readRemovedEntities data1
      else Except.ok ([], data1)) with
  | error e => simp only [h9] at h; exact Except.noConfusion h
  | ok p9 =>
  obtain ⟨removedEntities, removedRest⟩ := p9
  simp only [h9, Except.ok.injEq, Prod.mk.injEq] at h
  obtain ⟨hm, hr⟩ := h
  subst hr
  exact ⟨maxEntries, delta, baseLine, updatedEntries, len, updatedBaseLine,
    s1, s2, s3, s4, s5, s6, data, data1, entities, removedEntities, removedRest,
    rfl, h2, h3, h4, h5, h6, h7, h8, h9, hm.symm⟩

/-- C5: on every input stream where both succeed, parse_skip leaves the
cursor exactly where parse does.  For GameEventMessage both advance by
11 + length bits; for PacketEntitiesMessage both advance by the same
fixed-width header — 45 bits plus 32 when the delta tag is set — followed
by exactly the carved body length. -/
theorem c5_skip_matches_parse :
    (∀ s state msg r1 r2, GameEventMessage.parse s state = .ok (msg, r1) →
      GameEventMessage.parse_skip s = .ok r2 →
      r1 = r2 ∧ ∃ len, len < 2 ^ 11 ∧ s.length = r1.length + 11 + len) ∧
    (∀ pv s state msg r1 r2,
      PacketEntitiesMessage.parse pv s state = .ok (msg, r1) →
      PacketEntitiesMessage.parse_skip s = .ok r2 →
      r1 = r2 ∧ ∃ len, len < 2 ^ 20 ∧
        s.length = r1.length + 45 + (if msg.delta.isSome then 32 else 0) + len) := by
  constructor
  · intro s state msg r1 r2 hp hs
    unfold GameEventMessage.parse at hp
    cases h11 : readSized 11 s with
    | error e => simp only [h11] at hp; exact Except.noConfusion hp
    | ok p1 =>
    obtain ⟨len, s1⟩ := p1
    simp only [h11] at hp
    cases hc : readBits len s1 with
    | error e => simp only [hc] at hp; exact Except.noConfusion hp
    | ok p2 =>
    obtain ⟨data, rest⟩ := p2
    simp only [hc] at hp
    have hrest : r1 = rest := by
      cases h9 : readSized 9 data with
      | error e => simp only [h9] at hp; exact Except.noConfusion hp
      | ok p3 =>
      obtain ⟨tid, d1⟩ := p3
      simp only [h9] at hp
      cases hget : state.event_definitions.get? tid with
      | none => simp only [hget] at hp; exact Except.noConfusion hp
      | some defn =>
      simp only [hget] at hp
      cases hv : readEventValues defn.entries d1 with
      | error e => simp only [hv] at hp; exact Except.noConfusion hp
      | ok p4 =>
      obtain ⟨values, d2⟩ := p4
      simp only [hv, GameEvent.from_raw_event, Except.ok.injEq,
        Prod.mk.injEq] at hp
      exact hp.2.symm
    unfold GameEventMessage.parse_skip at hs
    simp only [h11] at hs
    obtain ⟨hsk, hle⟩ := skipBits_ok hs
    obtain ⟨hd, hr, hcle⟩ := readBits_ok hc
    obtain ⟨hv11, hs1, hl11⟩ := readSized_ok h11
    refine ⟨by rw [hrest, hr, hsk], len, readSized_lt h11, ?_⟩
    have hL1 : s1.length = s.length - 11 := by rw [hs1, List.length_drop]
    have hL2 : rest.length = s1.length - len := by rw [hr, List.length_drop]
    rw [hrest]
    omega
  · intro pv s state msg r1 r2 hp hs
    obtain ⟨maxEntries, delta, baseLine, updatedEntries, len, updatedBaseLine,
      s1, s2, s3, s4, s5, s6, data, data1, entities, removedEntities,
      removedRest, h1, h2, h3, h4, h5, h6, h7, h8, h9, hm⟩ :=
      PacketEntitiesMessage_parse_ok hp
    unfold PacketEntitiesMessage.parse_skip at hs
    simp only [h1, h2, h3, h4, h5, h6, bind, Except.bind] at hs
    obtain ⟨hsk, hskle⟩ := skipBits_ok hs
    obtain ⟨hd, hr, hcle⟩ := readBits_ok h7
    obtain ⟨hv1, hs1, hl1⟩ := readSized_ok h1
    obtain ⟨hv3, hs3, hl3⟩ := readSized_ok h3
    obtain ⟨hv4, hs4, hl4⟩ := readSized_ok h4
    obtain ⟨hv5, hs5, hl5⟩ := readSized_ok h5
    have hs6 : s5 = updatedBaseLine :: s6 := readBool_ok h6
    refine ⟨by rw [hr, hsk], len, readSized_lt h5, ?_⟩
    have hL1 : s1.length = s.length - 11 ∧ 11 ≤ s.length := by
      constructor
      · rw [hs1, List.length_drop]
      · exact hl1
    have hL3 : s3.length = s2.length - 1 ∧ 1 ≤ s2.length := by
      constructor
      · rw [hs3, List.length_drop]
      · exact hl3
    have hL4 : s4.length = s3.length - 11 ∧ 11 ≤ s3.length := by
      constructor
      · rw [hs4, List.length_drop]
      · exact hl4
    have hL5 : s5.length = s4.length - 20 ∧ 20 ≤ s4.length := by
      constructor
      · rw [hs5, List.length_drop]
      · exact hl5
    have hL6 : s5.length = s6.length + 1 := by rw [hs6, List.length_cons]
    have hLr : r1.length = s6.length - len ∧ len ≤ s6.length := by
      constructor
      · rw [hr, List.length_drop]
      · exact hcle
    have hdm : msg.delta = delta := by rw [hm]
    rcases readOptionU32_ok h2 with ⟨hdn, hs2, hl2⟩ | ⟨v, hdv, hs2, hl2⟩
    · have hL2 : s2.length = s1.length - 1 := by rw [hs2, List.length_drop]
      rw [hdm, hdn]
      simp only [Option.isSome_none, Bool.false_eq_true, if_false]
      omega
    · have hL2 : s2.length = s1.length - 33 := by rw [hs2, List.length_drop]
      rw [hdm, hdv]
      simp only [Option.isSome_some, if_true]
      omega

/-- Concrete stream of the C5 witness for the game-event half: an 11-bit
length of nine and a nine-bit type id of zero. -/
def c5EventStream : Bits := natToBits 11 9 ++ natToBits 9 0

/-- Parser state of the C5 witness: definition zero has no entries. -/
def c5State : ParserState := ⟨[], [], [⟨0, [], [], []⟩], [], [], ([], [])⟩

/-- Concrete stream of the C5 witness for the packet-entities half: an
all-zero header with no delta and an empty body. -/
def c5EntitiesStream : Bits :=
  natToBits 11 0 ++ [false] ++ [false] ++ natToBits 11 0 ++ natToBits 20 0 ++ [false]

/-- Witness for C5: both parsers and both skippers land on the empty rest
for the concrete streams. -/
theorem c5_witness :
    (([] : Bits) = ([] : Bits) ∧
      ∃ len, len < 2 ^ 11 ∧ c5EventStream.length = ([] : Bits).length + 11 + len) ∧
    (([] : Bits) = ([] : Bits) ∧
      ∃ len, len < 2 ^ 20 ∧ c5EntitiesStream.length = ([] : Bits).length + 45 +
        (if (⟨[], [], 0, Option.none, 0, false⟩ :
          PacketEntitiesMessage).delta.isSome then 32 else 0) + len) :=
  ⟨c5_skip_matches_parse.1 c5EventStream c5State ⟨⟨⟨[], []⟩⟩⟩ [] [] rfl rfl,
    c5_skip_matches_parse.2 trivialReader c5EntitiesStream c5State
      ⟨[], [], 0, Option.none, 0, false⟩ [] [] rfl rfl⟩

/-- C9: removed_entities is non-empty only when delta is present — with no
delta the trailer is not read and the list is empty, while with a delta
the trailer loop fills removed_entities in wire order, reading one
continuation bit and an 11-bit entity id per element, as the concrete
trailer holding ids 7 and 42 shows. -/
theorem c9_removed_trailer :
    (∀ pv s state msg r1, PacketEntitiesMessage.parse pv s state = .ok (msg, r1) →
      (msg.delta = Option.none → msg.removed_entities = []) ∧
      (msg.delta.isSome →
        ∃ baseLine updatedEntries data data1 removedRest,
          parseEntitiesLoop pv state baseLine updatedEntries data (-1) =
            .ok (msg.entities, data1) ∧
          readRemovedEntities data1 = .ok (msg.removed_entities, removedRest))) ∧
    readRemovedEntities ([true] ++ natToBits 11 7 ++ [true] ++ natToBits 11 42 ++
      [false]) = .ok ([7, 42], []) := by
  constructor
  · intro pv s state msg r1 hp
    obtain ⟨maxEntries, delta, baseLine, updatedEntries, len, updatedBaseLine,
      s1, s2, s3, s4, s5, s6, data, data1, entities, removedEntities,
      removedRest, h1, h2, h3, h4, h5, h6, h7, h8, h9, hm⟩ :=
      PacketEntitiesMessage_parse_ok hp
    constructor
    · intro hdn
      rw [hm] at hdn ⊢
      simp only at hdn
      rw [hdn] at h9
      simp only [Option.isSome_none, Bool.false_eq_true, if_false,
        Except.ok.injEq, Prod.mk.injEq] at h9
      simp only
      exact h9.1.symm
    · intro hds
      rw [hm] at hds
      simp only at hds
      rw [hds] at h9
      simp only [if_true] at h9
      refine ⟨baseLine, updatedEntries, data, data1, removedRest, ?_, ?_⟩
      · rw [hm]; exact h8
      · rw [hm]; exact h9
  · rfl

/-- Parser state of the C9 witness. -/
def c9State : ParserState := ⟨[], [], [], [], [], ([], [])⟩

/-- Concrete stream of the C9 witness: header with the delta tag set,
zero updated entries, a 13-bit body holding the trailer entry 7. -/
def c9Stream : Bits :=
  natToBits 11 0 ++ [true] ++ natToBits 32 0 ++ [false] ++ natToBits 11 0 ++
    natToBits 20 13 ++ [false] ++ ([true] ++ natToBits 11 7 ++ [false])

/-- Witness for C9: the concrete parse with a delta present yields the
removed-entities list holding id 7 through the trailer loop. -/
theorem c9_witness :
    ∃ baseLine updatedEntries data data1 removedRest,
      parseEntitiesLoop trivialReader c9State baseLine updatedEntries data (-1) =
        .ok ((⟨[], [7], 0, some 0, 0, false⟩ : PacketEntitiesMessage).entities,
          data1) ∧
      readRemovedEntities data1 =
        .ok ((⟨[], [7], 0, some 0, 0, false⟩ :
          PacketEntitiesMessage).removed_entities, removedRest) :=
  (c9_removed_trailer.1 trivialReader c9Stream c9State
    ⟨[], [7], 0, some 0, 0, false⟩ [] rfl).2 rfl

/-- Parser state of the C3 counterexample: entity 0 is live. -/
def c3State : ParserState := ⟨[], [], [], [(0, ⟨0, 0, 0⟩)], [], ([], [])⟩

/-- Concrete stream of the C3 counterexample: two updated entries, the
first with ubitvar diff 0 (entity 0, Leave), the second with the 32-bit
ubitvar diff 2^32 - 1, whose i32 cast is minus one, so the running index
stays at 0 (entity 0 again, Leave). -/
def c3Stream : Bits :=
  natToBits 11 0 ++ [false] ++ [false] ++ natToBits 11 2 ++ natToBits 20 44 ++
    [false] ++ (natToBits 2 0 ++ natToBits 4 0 ++ natToBits 2 1 ++
      natToBits 2 3 ++ natToBits 32 (2 ^ 32 - 1) ++ natToBits 2 1)

/-- C3 counterexample: a successful parse whose updated-entries loop
produces the entity-index sequence 0, 0 — not strictly increasing —
because the wire can carry a 32-bit ubitvar diff of 2^32 - 1, which the
source casts to the i32 minus one before adding one. -/
theorem c3_counterexample :
    (PacketEntitiesMessage.parse trivialReader c3Stream c3State).map
      (fun r => r.1.entities.map (fun ent => ent.entity_index)) = .ok [0, 0] ∧
    ¬ List.Chain' (· < ·) ([0, 0] : List Nat) :=
  ⟨rfl, by
    intro hch
    rw [List.chain'_cons] at hch
    exact absurd hch.1 (lt_irrefl 0)⟩

theorem readUpdateTraceAux_mono {pv : PropValueReader} {table : SendTable} :
    ∀ fuel s index ixs ds s1,
    readUpdateTraceAux pv table fuel s index = .ok (ixs, ds, s1) →
    (∀ d ∈ ds, d < 2 ^ 31) → (∀ i ∈ ixs, 0 ≤ i) →
    -(2 ^ 31) ≤ index → index < 2 ^ 31 →
    List.Chain' (· < ·) (index :: ixs) := by
  intro fuel
  induction fuel with
  | zero => intro s index ixs ds s1 h hd hi hlo hhi; exact Except.noConfusion h
  | succ n ih =>
    intro s index ixs ds s1 h hd hi hlo hhi
    unfold readUpdateTraceAux at h
    cases hb : readBool s with
    | error e => simp only [hb] at h; exact Except.noConfusion h
    | ok p1 =>
    obtain ⟨b, t1⟩ := p1
    cases b with
    | false =>
      simp only [hb, Except.ok.injEq, Prod.mk.injEq] at h
      rw [← h.1]
      simp
    | true =>
      simp only [hb] at h
      cases hbv : read_bit_var t1 with
      | error e => simp only [hbv] at h; exact Except.noConfusion h
      | ok p2 =>
      obtain ⟨diff, t2⟩ := p2
      simp only [hbv] at h
      cases hg : table.flattened_props.get?
          (toUsize (wrap32 (index + i32cast diff + 1))) with
      | none => simp only [hg] at h; exact Except.noConfusion h
      | some defn =>
      simp only [hg] at h
      cases hpv : pv defn t2 with
      | error e => simp only [hpv] at h; exact Except.noConfusion h
      | ok p3 =>
      obtain ⟨v, t3⟩ := p3
      simp only [hpv] at h
      cases hrec : readUpdateTraceAux pv table n t3 (wrap32 (index + i32cast diff + 1)) with
      | error e => simp only [hrec] at h; exact Except.noConfusion h
      | ok p4 =>
      obtain ⟨ixs1, p5⟩ := p4
      obtain ⟨ds1, t4⟩ := p5
      simp only [hrec, Except.ok.injEq, Prod.mk.injEq] at h
      obtain ⟨hx, hds, hs1⟩ := h
      rw [← hds] at hd
      rw [← hx] at hi
      rw [← hx]
      have hd0 : diff < 2 ^ 31 := hd diff (List.mem_cons_self _ _)
      have hi0 : 0 ≤ wrap32 (index + i32cast diff + 1) :=
        hi _ (List.mem_cons_self _ _)
      rw [List.chain'_cons]
      constructor
      · exact indexStep_gt hd0 hlo hhi hi0
      · exact ih t3 (wrap32 (index + i32cast diff + 1)) ixs1 ds1 t4 hrec
          (fun d hdm => hd d (List.mem_cons_of_mem _ hdm))
          (fun i him => hi i (List.mem_cons_of_mem _ him))
          (wrap32_bounds _).1 (wrap32_bounds _).2

theorem readUpdateTraceAux_link {pv : PropValueReader} {table : SendTable} :
    ∀ fuel s index ixs ds s1,
    readUpdateTraceAux pv table fuel s index = .ok (ixs, ds, s1) →
    ∃ props, readUpdateAux pv table fuel s index = .ok (props, s1) := by
  intro fuel
  induction fuel with
  | zero => intro s index ixs ds s1 h; exact Except.noConfusion h
  | succ n ih =>
    intro s index ixs ds s1 h
    unfold readUpdateTraceAux at h
    cases hb : readBool s with
    | error e => simp only [hb] at h; exact Except.noConfusion h
    | ok p1 =>
    obtain ⟨b, t1⟩ := p1
    cases b with
    | false =>
      simp only [hb, Except.ok.injEq, Prod.mk.injEq] at h
      exact ⟨[], by simp only [readUpdateAux, hb, h.2.2]⟩
    | true =>
      simp only [hb] at h
      cases hbv : read_bit_var t1 with
      | error e => simp only [hbv] at h; exact Except.noConfusion h
      | ok p2 =>
      obtain ⟨diff, t2⟩ := p2
      simp only [hbv] at h
      cases hg : table.flattened_props.get?
          (toUsize (wrap32 (index + i32cast diff + 1))) with
      | none => simp only [hg] at h; exact Except.noConfusion h
      | some defn =>
      simp only [hg] at h
      cases hpv : pv defn t2 with
      | error e => simp only [hpv] at h; exact Except.noConfusion h
      | ok p3 =>
      obtain ⟨v, t3⟩ := p3
      simp only [hpv] at h
      cases hrec : readUpdateTraceAux pv table n t3 (wrap32 (index + i32cast diff + 1)) with
      | error e => simp only [hrec] at h; exact Except.noConfusion h
      | ok p4 =>
      obtain ⟨ixs1, p5⟩ := p4
      obtain ⟨ds1, t4⟩ := p5
      simp only [hrec, Except.ok.injEq, Prod.mk.injEq] at h
      obtain ⟨props1, hrec1⟩ := ih t3 (wrap32 (index + i32cast diff + 1)) ixs1 ds1 t4 hrec
      refine ⟨⟨defn, v⟩ :: props1, ?_⟩
      simp only [readUpdateAux, hb, hbv, hg, hpv, hrec1, h.2.2]

theorem chainStep {lastIndex : Int} {diff : Nat} {ixs ixs1 : List Int}
    {ds ds1 : List Nat}
    (hx : wrap32 (lastIndex + i32cast diff + 1) :: ixs1 = ixs)
    (hds : diff :: ds1 = ds)
    (hd : ∀ d ∈ ds, d < 2 ^ 31) (hi : ∀ i ∈ ixs, 0 ≤ i)
    (hlo : -(2 ^ 31) ≤ lastIndex) (hhi : lastIndex < 2 ^ 31)
    (htail : List.Chain' (· < ·) (wrap32 (lastIndex + i32cast diff + 1) :: ixs1)) :
    List.Chain' (· < ·) (lastIndex :: ixs) := by
  rw [← hx, List.chain'_cons]
  refine ⟨?_, htail⟩
  have hd0 : diff < 2 ^ 31 := hd diff (by rw [← hds]; exact List.mem_cons_self _ _)
  have hi0 : 0 ≤ wrap32 (lastIndex + i32cast diff + 1) := by
    apply hi
    rw [← hx]
    exact List.mem_cons_self _ _
  exact indexStep_gt hd0 hlo hhi hi0

theorem entitiesLoopTrace_mono {pv : PropValueReader} {state : ParserState}
    {baseLine : Nat} :
    ∀ n s lastIndex ixs ds s1,
    entitiesLoopTrace pv state baseLine n s lastIndex = .ok (ixs, ds, s1) →
    (∀ d ∈ ds, d < 2 ^ 31) → (∀ i ∈ ixs, 0 ≤ i) →
    -(2 ^ 31) ≤ lastIndex → lastIndex < 2 ^ 31 →
    List.Chain' (· < ·) (lastIndex :: ixs) := by
  intro n
  induction n with
  | zero =>
    intro s lastIndex ixs ds s1 h hd hi hlo hhi
    simp only [entitiesLoopTrace, Except.ok.injEq, Prod.mk.injEq] at h
    rw [← h.1]
    simp
  | succ n ih =>
    intro s lastIndex ixs ds s1 h hd hi hlo hhi
    unfold entitiesLoopTrace at h
    cases hbv : read_bit_var s with
    | error e => simp only [hbv] at h; exact Except.noConfusion h
    | ok p1 =>
    obtain ⟨diff, t1⟩ := p1
    simp only [hbv] at h
    cases hpvs : readPVS t1 with
    | error e => simp only [hpvs] at h; exact Except.noConfusion h
    | ok p2 =>
    obtain ⟨pvs, t2⟩ := p2
    simp only [hpvs] at h
    split at h
    · cases he : read_enter pv t2 (toU32 (wrap32 (lastIndex + i32cast diff + 1)))
          state baseLine with
      | error e => simp only [he] at h; exact Except.noConfusion h
      | ok p3 =>
      obtain ⟨entity, t3⟩ := p3
      simp only [he] at h
      cases hst : get_send_table state entity.server_class.data_table with
      | error e => simp only [hst] at h; exact Except.noConfusion h
      | ok sendTable =>
      simp only [hst] at h
      cases hru : read_update pv sendTable t3 with
      | error e => simp only [hru] at h; exact Except.noConfusion h
      | ok p4 =>
      obtain ⟨up, t4⟩ := p4
      simp only [hru] at h
      cases hrec : entitiesLoopTrace pv state baseLine n t4
          (wrap32 (lastIndex + i32cast diff + 1)) with
      | error e => simp only [hrec] at h; exact Except.noConfusion h
      | ok p5 =>
      obtain ⟨ixs1, p6⟩ := p5
      obtain ⟨ds1, t5⟩ := p6
      simp only [hrec, Except.ok.injEq, Prod.mk.injEq] at h
      obtain ⟨hx, hds, hs1⟩ := h
      exact chainStep hx hds hd hi hlo hhi
        (ih t4 _ ixs1 ds1 t5 hrec
          (fun d hdm => hd d (by rw [← hds]; exact List.mem_cons_of_mem _ hdm))
          (fun i him => hi i (by rw [← hx]; exact List.mem_cons_of_mem _ him))
          (wrap32_bounds _).1 (wrap32_bounds _).2)
    · split at h
      · cases hge : get_entity_for_update state
            (toU32 (wrap32 (lastIndex + i32cast diff + 1))) pvs with
        | error e => simp only [hge] at h; exact Except.noConfusion h
        | ok entity =>
        simp only [hge] at h
        cases hst : get_send_table state entity.server_class.data_table with
        | error e => simp only [hst] at h; exact Except.noConfusion h
        | ok sendTable =>
        simp only [hst] at h
        cases hru : read_update pv sendTable t2 with
        | error e => simp only [hru] at h; exact Except.noConfusion h
        | ok p4 =>
        obtain ⟨up, t4⟩ := p4
        simp only [hru] at h
        cases hrec : entitiesLoopTrace pv state baseLine n t4
            (wrap32 (lastIndex + i32cast diff + 1)) with
        | error e => simp only [hrec] at h; exact Except.noConfusion h
        | ok p5 =>
        obtain ⟨ixs1, p6⟩ := p5
        obtain ⟨ds1, t5⟩ := p6
        simp only [hrec, Except.ok.injEq, Prod.mk.injEq] at h
        obtain ⟨hx, hds, hs1⟩ := h
        exact chainStep hx hds hd hi hlo hhi
          (ih t4 _ ixs1 ds1 t5 hrec
            (fun d hdm => hd d (by rw [← hds]; exact List.mem_cons_of_mem _ hdm))
            (fun i him => hi i (by rw [← hx]; exact List.mem_cons_of_mem _ him))
            (wrap32_bounds _).1 (wrap32_bounds _).2)
      · split at h
        · cases hge : get_entity_for_update state
              (toU32 (wrap32 (lastIndex + i32cast diff + 1))) pvs with
          | error e => simp only [hge] at h; exact Except.noConfusion h
          | ok entity =>
          simp only [hge] at h
          cases hrec : entitiesLoopTrace pv state baseLine n t2
              (wrap32 (lastIndex + i32cast diff + 1)) with
          | error e => simp only [hrec] at h; exact Except.noConfusion h
          | ok p5 =>
          obtain ⟨ixs1, p6⟩ := p5
          obtain ⟨ds1, t5⟩ := p6
          simp only [hrec, Except.ok.injEq, Prod.mk.injEq] at h
          obtain ⟨hx, hds, hs1⟩ := h
          exact chainStep hx hds hd hi hlo hhi
            (ih t2 _ ixs1 ds1 t5 hrec
              (fun d hdm => hd d (by rw [← hds]; exact List.mem_cons_of_mem _ hdm))
              (fun i him => hi i (by rw [← hx]; exact List.mem_cons_of_mem _ him))
              (wrap32_bounds _).1 (wrap32_bounds _).2)
        · cases hrec : entitiesLoopTrace pv state baseLine n t2
              (wrap32 (lastIndex + i32cast diff + 1)) with
          | error e => simp only [hrec] at h; exact Except.noConfusion h
          | ok p5 =>
          obtain ⟨ixs1, p6⟩ := p5
          obtain ⟨ds1, t5⟩ := p6
          simp only [hrec, Except.ok.injEq, Prod.mk.injEq] at h
          obtain ⟨hx, hds, hs1⟩ := h
          exact chainStep hx hds hd hi hlo hhi
            (ih t2 _ ixs1 ds1 t5 hrec
              (fun d hdm => hd d (by rw [← hds]; exact List.mem_cons_of_mem _ hdm))
              (fun i him => hi i (by rw [← hx]; exact List.mem_cons_of_mem _ him))
              (wrap32_bounds _).1 (wrap32_bounds _).2)

theorem entitiesLoopTrace_link {pv : PropValueReader} {state : ParserState}
    {baseLine : Nat} :
    ∀ n s lastIndex ixs ds s1,
    entitiesLoopTrace pv state baseLine n s lastIndex = .ok (ixs, ds, s1) →
    ∃ ents, parseEntitiesLoop pv state baseLine n s lastIndex = .ok (ents, s1) := by
  intro n
  induction n with
  | zero =>
    intro s lastIndex ixs ds s1 h
    simp only [entitiesLoopTrace, Except.ok.injEq, Prod.mk.injEq] at h
    exact ⟨[], by simp only [parseEntitiesLoop, h.2.2]⟩
  | succ n ih =>
    intro s lastIndex ixs ds s1 h
    unfold entitiesLoopTrace at h
    cases hbv : read_bit_var s with
    | error e => simp only [hbv] at h; exact Except.noConfusion h
    | ok p1 =>
    obtain ⟨diff, t1⟩ := p1
    simp only [hbv] at h
    cases hpvs : readPVS t1 with
    | error e => simp only [hpvs] at h; exact Except.noConfusion h
    | ok p2 =>
    obtain ⟨pvs, t2⟩ := p2
    simp only [hpvs] at h
    split at h
    · rename_i hc1
      subst hc1
      cases he : read_enter pv t2 (toU32 (wrap32 (lastIndex + i32cast diff + 1)))
          state baseLine with
      | error e => simp only [he] at h; exact Except.noConfusion h
      | ok p3 =>
      obtain ⟨entity, t3⟩ := p3
      simp only [he] at h
      cases hst : get_send_table state entity.server_class.data_table with
      | error e => simp only [hst] at h; exact Except.noConfusion h
      | ok sendTable =>
      simp only [hst] at h
      cases hru : read_update pv sendTable t3 with
      | error e => simp only [hru] at h; exact Except.noConfusion h
      | ok p4 =>
      obtain ⟨up, t4⟩ := p4
      simp only [hru] at h
      cases hrec : entitiesLoopTrace pv state baseLine n t4
          (wrap32 (lastIndex + i32cast diff + 1)) with
      | error e => simp only [hrec] at h; exact Except.noConfusion h
      | ok p5 =>
      obtain ⟨ixs1, p6⟩ := p5
      obtain ⟨ds1, t5⟩ := p6
      simp only [hrec, Except.ok.injEq, Prod.mk.injEq] at h
      obtain ⟨ents1, hrec1⟩ := ih t4 _ ixs1 ds1 t5 hrec
      rw [h.2.2] at hrec1
      refine ⟨entity.apply_update up :: ents1, ?_⟩
      simp only [parseEntitiesLoop, hbv, hpvs, if_true, if_false]
      simp only [he, hst, hru, hrec1]
    · rename_i hne1
      split at h
      · rename_i hc2
        subst hc2
        cases hge : get_entity_for_update state
            (toU32 (wrap32 (lastIndex + i32cast diff + 1))) PVS.preserve with
        | error e => simp only [hge] at h; exact Except.noConfusion h
        | ok entity =>
        simp only [hge] at h
        cases hst : get_send_table state entity.server_class.data_table with
        | error e => simp only [hst] at h; exact Except.noConfusion h
        | ok sendTable =>
        simp only [hst] at h
        cases hru : read_update pv sendTable t2 with
        | error e => simp only [hru] at h; exact Except.noConfusion h
        | ok p4 =>
        obtain ⟨up, t4⟩ := p4
        simp only [hru] at h
        cases hrec : entitiesLoopTrace pv state baseLine n t4
            (wrap32 (lastIndex + i32cast diff + 1)) with
        | error e => simp only [hrec] at h; exact Except.noConfusion h
        | ok p5 =>
        obtain ⟨ixs1, p6⟩ := p5
        obtain ⟨ds1, t5⟩ := p6
        simp only [hrec, Except.ok.injEq, Prod.mk.injEq] at h
        obtain ⟨ents1, hrec1⟩ := ih t4 _ ixs1 ds1 t5 hrec
        rw [h.2.2] at hrec1
        refine ⟨⟨entity.server_class, entity.entity_index, up, entity.in_pvs,
          entity.pvs, entity.serial_number, entity.delay⟩ :: ents1, ?_⟩
        simp only [parseEntitiesLoop, hbv, hpvs]
        rw [if_neg hne1]
        simp only [if_true, hge, hst, hru, hrec1]
      · rename_i hne2
        split at h
        · rename_i hc3
          cases hge : get_entity_for_update state
              (toU32 (wrap32 (lastIndex + i32cast diff + 1))) pvs with
          | error e => simp only [hge] at h; exact Except.noConfusion h
          | ok entity =>
          simp only [hge] at h
          cases hrec : entitiesLoopTrace pv state baseLine n t2
              (wrap32 (lastIndex + i32cast diff + 1)) with
          | error e => simp only [hrec] at h; exact Except.noConfusion h
          | ok p5 =>
          obtain ⟨ixs1, p6⟩ := p5
          obtain ⟨ds1, t5⟩ := p6
          simp only [hrec, Except.ok.injEq, Prod.mk.injEq] at h
          obtain ⟨ents1, hrec1⟩ := ih t2 _ ixs1 ds1 t5 hrec
          rw [h.2.2] at hrec1
          refine ⟨entity :: ents1, ?_⟩
          simp only [parseEntitiesLoop, hbv, hpvs]
          rw [if_neg hne1, if_neg hne2, if_pos hc3]
          simp only [hge, hrec1]
        · rename_i hne3
          cases hrec : entitiesLoopTrace pv state baseLine n t2
              (wrap32 (lastIndex + i32cast diff + 1)) with
          | error e => simp only [hrec] at h; exact Except.noConfusion h
          | ok p5 =>
          obtain ⟨ixs1, p6⟩ := p5
          obtain ⟨ds1, t5⟩ := p6
          simp only [hrec, Except.ok.injEq, Prod.mk.injEq] at h
          obtain ⟨ents1, hrec1⟩ := ih t2 _ ixs1 ds1 t5 hrec
          rw [h.2.2] at hrec1
          refine ⟨ents1, ?_⟩
          simp only [parseEntitiesLoop, hbv, hpvs]
          rw [if_neg hne1, if_neg hne2, if_neg hne3]
          exact hrec1

/-- C3 amended: in both the updated-entries loop and the prop-update loop
the index sequence of every successful run is strictly increasing provided
each ubitvar diff is below 2^31 and the running i32 index never overflows
(every produced index is nonnegative); a 32-bit diff at or above 2^31
casts to a negative i32 and can repeat or decrease the index, as the
counterexample shows.  The trace functions perform exactly the same reads
as read_update and parseEntitiesLoop, whose success on the same final
stream is part of the statement. -/
theorem c3_monotone_without_overflow :
    (∀ pv table s ixs ds s1,
      readUpdateTrace pv table s = .ok (ixs, ds, s1) →
      (∀ d ∈ ds, d < 2 ^ 31) → (∀ i ∈ ixs, 0 ≤ i) →
      List.Chain' (· < ·) ixs ∧
      ∃ props, read_update pv table s = .ok (props, s1)) ∧
    (∀ pv state baseLine n s ixs ds s1,
      entitiesLoopTrace pv state baseLine n s (-1) = .ok (ixs, ds, s1) →
      (∀ d ∈ ds, d < 2 ^ 31) → (∀ i ∈ ixs, 0 ≤ i) →
      List.Chain' (· < ·) ixs ∧
      ∃ ents, parseEntitiesLoop pv state baseLine n s (-1) = .ok (ents, s1)) := by
  constructor
  · intro pv table s ixs ds s1 h hd hi
    constructor
    · exact (readUpdateTraceAux_mono (s.length + 1) s (-1) ixs ds s1 h hd hi
        (by norm_num) (by norm_num)).tail
    · exact readUpdateTraceAux_link (s.length + 1) s (-1) ixs ds s1 h
  · intro pv state baseLine n s ixs ds s1 h hd hi
    constructor
    · exact (entitiesLoopTrace_mono n s (-1) ixs ds s1 h hd hi
        (by norm_num) (by norm_num)).tail
    · exact entitiesLoopTrace_link n s (-1) ixs ds s1 h

/-- Send table of the C3 witness with two flattened props. -/
def c3WitTable : SendTable :=
  ⟨9, [c1Def, ⟨7, 2, .int, 0, 32, 0, 0, 0, Option.none⟩]⟩

/-- Concrete prop-update stream of the C3 witness: two entries with
ubitvar diff zero each visit the strictly increasing indices 0 and 1. -/
def c3WitStream : Bits :=
  [true] ++ natToBits 2 0 ++ natToBits 4 0 ++ [true] ++ natToBits 2 0 ++
    natToBits 4 0 ++ [false]

/-- Witness for the amended C3 at a concrete run with small diffs. -/
theorem c3_witness :
    List.Chain' (· < ·) ([0, 1] : List Int) ∧
    ∃ props, read_update trivialReader c3WitTable c3WitStream = .ok (props, []) :=
  c3_monotone_without_overflow.1 trivialReader c3WitTable c3WitStream
    [0, 1] [0, 0] [] rfl (by decide) (by decide)

end Demo
